import Mathlib

/-!
Verification of the document pipeline in `server/src/pipeline.py`.

The Python source works over dynamically typed values (JSON-like records),
so we shallowly embed Python values as the inductive type `PyVal` and give
each source function a Lean counterpart that returns `Except PyErr _`
wherever the Python code can raise.  Functions are translated statement by
statement from the source; external collaborators (BeautifulSoup's
`get_text`, `datetime.fromisoformat`) are modelled from their documented
contracts and are marked as such in their doc comments.
-/

set_option maxRecDepth 10000

namespace Pipeline

/-- Shallow embedding of the Python values the pipeline manipulates. -/
inductive PyVal where
  | none
  | bool (b : Bool)
  | int (n : Int)
  | str (s : String)
  | list (xs : List PyVal)
  | dict (kvs : List (String × PyVal))
deriving Repr, Inhabited

/-- Python exceptions that the pipeline code can raise. -/
inductive PyErr where
  | valueError (msg : String)
  | attributeError
  | typeError
  | keyError
  | indexError
deriving Repr, DecidableEq

/-- Python truthiness (`bool(v)`). -/
def pyTruthy : PyVal → Bool
  | .none => false
  | .bool b => b
  | .int n => n != 0
  | .str s => !s.isEmpty
  | .list xs => !xs.isEmpty
  | .dict kvs => !kvs.isEmpty

/-- Python `a or b` (with both operands already evaluated; in the pipeline
the operands are dictionary `get` calls on known dictionaries, which cannot
raise, so strict evaluation is faithful). -/
def pyOr (a b : PyVal) : PyVal := if pyTruthy a then a else b

/-- Lookup in an association list used as a Python dict; missing keys give
`PyVal.none`, matching `dict.get`'s default. -/
def dlookup (kvs : List (String × PyVal)) (k : String) : PyVal :=
  match kvs.lookup k with
  | Option.none => PyVal.none
  | some v => v

/-- Python `v.get(k)`: succeeds on dicts (returning `None` for a missing
key) and raises `AttributeError` on every other value. -/
def dget (v : PyVal) (k : String) : Except PyErr PyVal :=
  match v with
  | .dict kvs => .ok (dlookup kvs k)
  | _ => .error .attributeError

/-- Python `v.get(k, default)`. -/
def dgetD (v : PyVal) (k : String) (d : PyVal) : Except PyErr PyVal :=
  match v with
  | .dict kvs =>
      match kvs.lookup k with
      | Option.none => .ok d
      | some x => .ok x
  | _ => .error .attributeError

/-- Python iteration `for x in v`: lists yield elements, strings yield
one-character strings, dicts yield their keys; other values raise
`TypeError`. -/
def pyIter : PyVal → Except PyErr (List PyVal)
  | .list xs => .ok xs
  | .str s => .ok (s.toList.map (fun c => .str (String.singleton c)))
  | .dict kvs => .ok (kvs.map (fun kv => .str kv.1))
  | _ => .error .typeError

/-- Naive substring test on character lists (used for Python `in` on
strings). -/
def hasSubseq (pat l : List Char) : Bool :=
  (List.range (l.length + 1)).any (fun i => decide ((l.drop i).take pat.length = pat))

/-- Python equality between hashable scalar values (`True == 1` holds in
Python, so booleans compare equal to the corresponding integers). -/
def pyEqScalar : PyVal → PyVal → Bool
  | .none, .none => true
  | .bool a, .bool b => a == b
  | .bool a, .int b => (if a then (1 : Int) else 0) == b
  | .int a, .bool b => a == (if b then (1 : Int) else 0)
  | .int a, .int b => a == b
  | .str a, .str b => a == b
  | _, _ => false

/-- Python hashability: lists and dicts are unhashable. -/
def pyHashable : PyVal → Bool
  | .list _ => false
  | .dict _ => false
  | _ => true

/-- Python `k in v` for a string key: key test on dicts, substring test on
strings, membership on lists; `TypeError` otherwise. -/
def pyContains (v : PyVal) (k : String) : Except PyErr Bool :=
  match v with
  | .dict kvs => .ok (kvs.any (fun kv => kv.1 == k))
  | .str s => .ok (hasSubseq k.toList s.toList)
  | .list xs => .ok (xs.any (fun x => pyEqScalar x (.str k)))
  | _ => .error .typeError

/-- Python `v[k]` for a string key: dict indexing (`KeyError` on a missing
key); every other receiver raises `TypeError`. -/
def pyIndexStr (v : PyVal) (k : String) : Except PyErr PyVal :=
  match v with
  | .dict kvs =>
      match kvs.lookup k with
      | Option.none => .error .keyError
      | some x => .ok x
  | _ => .error .typeError

/-- Python `str(v)`: exact for the scalar values that actually reach the
pipeline's string interpolation; container reprs are best-effort (no
theorem relies on them). -/
def pyToStr : PyVal → String
  | .str s => s
  | .int n => toString n
  | .bool b => if b then "True" else "False"
  | .none => "None"
  | .list _ => "[...]"
  | .dict _ => "\x7b...\x7d"

/-- Characters stripped by Python `str.strip()` (the whitespace characters
relevant to this pipeline's data; includes the non-breaking space, which
Python treats as whitespace). -/
def pyIsSpace (c : Char) : Bool :=
  c = ' ' || c = '\t' || c = '\n' || c = '\r' || c = '\x0b' || c = '\x0c' || c = '\x85' || c = '\xa0'

/-- Truthiness of `s.strip()`: the string has some non-whitespace
character. -/
def pyNonBlank (s : String) : Bool := s.toList.any (fun c => !pyIsSpace c)

/-- Python `s.startswith(pre)` (char-list implementation; `String.startsWith`
does not reduce in the kernel). -/
def pyStartsWith (s pre : String) : Bool := pre.toList.isPrefixOf s.toList

/-- Python `s.endswith(suf)`. -/
def pyEndsWith (s suf : String) : Bool := suf.toList.isSuffixOf s.toList

def replaceZchars (rep : List Char) : List Char → List Char
  | [] => []
  | c :: cs => if c = 'Z' then rep ++ replaceZchars rep cs else c :: replaceZchars rep cs

/-- Python `ts_val.replace("Z", "+00:00")`: the pattern is a single
character, so per-character replacement is exact (and, like Python's
`replace`, it replaces every occurrence). -/
def replaceZ (s : String) : String := String.mk (replaceZchars "+00:00".toList s.toList)

/-- Python `dict[k] = v` on PyVal dicts: updates the first occurrence in
place or appends a fresh key, matching insertion-ordered dicts.  (In the
pipeline this is only applied to dict documents.) -/
def setK : List (String × PyVal) → String → PyVal → List (String × PyVal)
  | [], k, v => [(k, v)]
  | (k', v') :: rest, k, v =>
      if k' = k then (k', v) :: rest else (k', v') :: setK rest k v

/-- Attach a key to a document (`doc["embedding"] = emb`); non-dict
receivers are left unchanged (unreachable in the pipeline, where every
document is a dict produced by `transform_document`). -/
def pySetItem (d : PyVal) (k : String) (v : PyVal) : PyVal :=
  match d with
  | .dict kvs => .dict (setK kvs k v)
  | _ => d

/-! ## TextNormalizer: `strip_html` and `normalize_text` -/

/-- Space or tab, the character class `[ \t]` of the whitespace-collapsing
regex in `normalize_text`. -/
def isWs (c : Char) : Bool := c = ' ' || c = '\t'

/-- The test `"<" not in raw and "&" not in raw` of `strip_html`. -/
def isMarkupFree (l : List Char) : Bool := l.all (fun c => c ≠ '<' && c ≠ '&')

/-- Named character references decoded by Python's `html.parser` (the ones
exercised by this pipeline's data). -/
def entityChar (name : List Char) : Option Char :=
  if name = "amp".toList then some '&'
  else if name = "lt".toList then some '<'
  else if name = "gt".toList then some '>'
  else if name = "quot".toList then some '"'
  else if name = "nbsp".toList then some '\xa0'
  else Option.none

theorem dropWhile_len_le {α : Type _} (p : α → Bool) (l : List α) :
    (l.dropWhile p).length ≤ l.length :=
  (List.dropWhile_suffix p).sublist.length_le

/-- Modelled from the spec: character-reference decoding performed by
BeautifulSoup's `html.parser` backend (external library, not under `src/`;
`convert_charrefs` is on by default, so `&amp;`, `&nbsp;`, … become their
Unicode characters inside text nodes; unrecognised sequences are left
as-is).  The fuel argument only bounds the recursion; every step consumes
at least one input character, so `decodeEntities` supplies enough. -/
def decodeEntitiesF : Nat → List Char → List Char
  | 0, _ => []
  | _, [] => []
  | fuel + 1, '&' :: rest =>
      let name := rest.takeWhile (fun c => c ≠ ';' && c ≠ '&' && c ≠ '<' && c ≠ ' ')
      (match rest.drop name.length with
       | ';' :: after =>
           (match entityChar name with
            | some c => c :: decodeEntitiesF fuel after
            | Option.none => '&' :: decodeEntitiesF fuel rest)
       | _ => '&' :: decodeEntitiesF fuel rest)
  | fuel + 1, c :: rest => c :: decodeEntitiesF fuel rest

def decodeEntities (l : List Char) : List Char := decodeEntitiesF l.length l

/-- Modelled from the spec: the tag-splitting part of BeautifulSoup's
`get_text` (external library, not under `src/`): the input is cut into the
text fragments lying between `<...>` tags; an unterminated tag discards
the remainder.  Fueled like `decodeEntitiesF`. -/
def splitTagsF : Nat → List Char → List Char → List (List Char)
  | 0, cur, _ => [cur.reverse]
  | _, cur, [] => [cur.reverse]
  | fuel + 1, cur, '<' :: rest =>
      (match rest.dropWhile (fun c => c ≠ '>') with
       | '>' :: after => cur.reverse :: splitTagsF fuel [] after
       | _ => [cur.reverse])
  | fuel + 1, cur, c :: rest => splitTagsF fuel (c :: cur) rest

def splitTagsGo (cur l : List Char) : List (List Char) := splitTagsF l.length cur l

/-- Modelled from the spec: `BeautifulSoup(raw, "html.parser").get_text(separator="\n")`
(external library, not under `src/`): tags are stripped, character
references decoded, and the resulting non-empty text fragments joined with
the separator `"\n"`. -/
def bs_get_text (l : List Char) : List Char :=
  let frags := (splitTagsGo [] l).map decodeEntities
  let nonempty := frags.filter (fun f => !f.isEmpty)
  List.intercalate ['\n'] nonempty

/-- The function `strip_html` of `pipeline.py`, on the character list of an
already-string input (the only way `normalize_text` calls it). -/
def strip_html_chars (l : List Char) : List Char :=
  if l.isEmpty then []
  else if isMarkupFree l then l
  else bs_get_text l

/-- The substitution `re.sub(r"[ \t]*\n[ \t]*", "\n", text)`: the pattern
deletes every maximal space/tab run adjacent to a newline while keeping
the newline itself.  Implemented as a right fold: a newline swallows the
surviving whitespace run after it, and a space/tab whose processed
continuation starts with a newline is dropped (its run reaches that
newline); this is exactly the leftmost-match semantics of `re.sub` for
this pattern. -/
def collapseWs : List Char → List Char
  | [] => []
  | c :: cs =>
      let r := collapseWs cs
      if c = '\n' then '\n' :: r.dropWhile isWs
      else if isWs c then
        (if r.head? = some '\n' then r else c :: r)
      else c :: r

/-- Python `str.strip("\n")`, trailing half: drop all trailing newline
characters. -/
def dropTrailingNl (l : List Char) : List Char :=
  match l with
  | [] => []
  | c :: cs =>
      if c = '\n' ∧ dropTrailingNl cs = [] then [] else c :: dropTrailingNl cs

/-- Python `text.strip("\n")`: drop leading and trailing newline
characters. -/
def stripNl (l : List Char) : List Char :=
  dropTrailingNl (l.dropWhile (fun c => c = '\n'))

/-- Replacement `text.replace("\xa0", " ")`. -/
def nbspToSpace (c : Char) : Char := if c = '\xa0' then ' ' else c

/-- The function `normalize_text` of `pipeline.py` on string input: replace
non-breaking spaces, strip HTML, collapse whitespace around newlines, and
strip leading/trailing newlines. -/
def normalize_text (t : String) : String :=
  String.mk (stripNl (collapseWs (strip_html_chars (t.toList.map nbspToSpace))))

/-- `normalize_text` on an arbitrary Python value: `None` becomes the empty
string; non-string, non-`None` inputs raise `AttributeError` at the first
string method (`text.replace`). -/
def normalize_text_py (v : PyVal) : Except PyErr String :=
  match v with
  | .none => .ok ""
  | .str s => .ok (normalize_text s)
  | _ => .error .attributeError

/-- No bad adjacency between two characters: a space/tab directly before a
newline, or directly after one (the configurations rewritten by the
whitespace-collapsing regex). -/
def pairOk (a b : Char) : Bool :=
  !((isWs a && b = '\n') || (a = '\n' && isWs b))

def pairOkO (a : Char) : Option Char → Bool
  | Option.none => true
  | some b => pairOk a b

/-- The string has no space/tab adjacent to a newline (so the collapsing
regex is the identity on it). -/
def noWsNl : List Char → Bool
  | [] => true
  | a :: l => pairOkO a l.head? && noWsNl l

/-! ## Timestamp parsing (`datetime.fromisoformat` model) -/

def digitsVal (l : List Char) : Nat := l.foldl (fun a c => a * 10 + (c.toNat - 48)) 0

def allDigits (l : List Char) : Bool := l.all Char.isDigit

def isLeap (y : Nat) : Bool := (y % 4 == 0 && y % 100 != 0) || y % 400 == 0

def daysInMonth (y m : Nat) : Nat :=
  if m = 2 then (if isLeap y then 29 else 28)
  else if m = 4 ∨ m = 6 ∨ m = 9 ∨ m = 11 then 30
  else 31

def dateOk (y m d : Nat) : Bool :=
  1 ≤ y && 1 ≤ m && m ≤ 12 && 1 ≤ d && d ≤ daysInMonth y m

/-- Parse the mandatory `YYYY-MM-DD` prefix; returns the remainder. -/
def parseDateChars : List Char → Option (List Char)
  | y1 :: y2 :: y3 :: y4 :: '-' :: m1 :: m2 :: '-' :: d1 :: d2 :: rest =>
      if allDigits [y1, y2, y3, y4, m1, m2, d1, d2] &&
         dateOk (digitsVal [y1, y2, y3, y4]) (digitsVal [m1, m2]) (digitsVal [d1, d2])
      then some rest else Option.none
  | _ => Option.none

/-- Split a list at the first occurrence of `c` (the separator dropped). -/
def splitAtFirst (c : Char) : List Char → Option (List Char × List Char)
  | [] => Option.none
  | x :: xs =>
      if x = c then some ([], xs)
      else (splitAtFirst c xs).map (fun p => (x :: p.1, p.2))

/-- Split the time-of-day part from the UTC-offset part, preferring `-`
over `+` as `CPython`'s `_parse_isoformat_time` does. -/
def splitTzTime (l : List Char) : List Char × Option (List Char) :=
  match splitAtFirst '-' l with
  | some (a, b) => (a, some b)
  | Option.none =>
      match splitAtFirst '+' l with
      | some (a, b) => (a, some b)
      | Option.none => (l, Option.none)

/-- Parse `HH[:MM[:SS[.fff[fff]]]]` (two-digit fields, fraction of exactly
three or six digits). -/
def hmsParts (l : List Char) : Option (Nat × Nat × Nat) :=
  match l with
  | [h1, h2] =>
      if allDigits [h1, h2] then some (digitsVal [h1, h2], 0, 0) else Option.none
  | [h1, h2, ':', m1, m2] =>
      if allDigits [h1, h2, m1, m2] then
        some (digitsVal [h1, h2], digitsVal [m1, m2], 0)
      else Option.none
  | [h1, h2, ':', m1, m2, ':', s1, s2] =>
      if allDigits [h1, h2, m1, m2, s1, s2] then
        some (digitsVal [h1, h2], digitsVal [m1, m2], digitsVal [s1, s2])
      else Option.none
  | h1 :: h2 :: ':' :: m1 :: m2 :: ':' :: s1 :: s2 :: '.' :: fr =>
      if allDigits ([h1, h2, m1, m2, s1, s2] ++ fr) && (fr.length = 3 || fr.length = 6) then
        some (digitsVal [h1, h2], digitsVal [m1, m2], digitsVal [s1, s2])
      else Option.none
  | _ => Option.none

def timeFieldsOk (l : List Char) : Bool :=
  match hmsParts l with
  | some (h, m, s) => h ≤ 23 && m ≤ 59 && s ≤ 59
  | Option.none => false

/-- Offset validity: one of the three documented lengths, well-formed
fields, and a magnitude strictly below 24 hours. -/
def tzOk (l : List Char) : Bool :=
  (l.length = 5 || l.length = 8 || l.length = 15) &&
  match hmsParts l with
  | some (h, m, s) => h * 3600 + m * 60 + s < 86400
  | Option.none => false

/-- Modelled from the spec: `datetime.fromisoformat` (standard library,
external to `src/`), following its documented pre-3.11 grammar
`YYYY-MM-DD[*HH[:MM[:SS[.fff[fff]]]]][(+|-)HH:MM[:SS[.ffffff]]]` with field
range checks. -/
def fromisoformat_ok (s : String) : Bool :=
  match parseDateChars s.toList with
  | Option.none => false
  | some rest =>
      match rest with
      | [] => true
      | _sep :: timechars =>
          match splitTzTime timechars with
          | (timepart, Option.none) => timeFieldsOk timepart
          | (timepart, some tzpart) => timeFieldsOk timepart && tzOk tzpart

/-! ## MetadataExtractor -/

/-- The inner loop of `collect_names`: the first truthy value among the
keys `name`, `text`, `description`, `slug` of one taxonomy item. -/
def labelOf (item : PyVal) : Except PyErr (Option PyVal) := do
  let n ← dget item "name"
  if pyTruthy n then return some n
  let t ← dget item "text"
  if pyTruthy t then return some t
  let d ← dget item "description"
  if pyTruthy d then return some d
  let s ← dget item "slug"
  if pyTruthy s then return some s
  return Option.none

def collect_go : List PyVal → Except PyErr (List PyVal)
  | [] => .ok []
  | item :: rest => do
      match ← labelOf item with
      | some v => return v :: (← collect_go rest)
      | Option.none => collect_go rest

/-- The function `collect_names` of `pipeline.py`. -/
def collect_names (items : PyVal) : Except PyErr (List PyVal) := do
  collect_go (← pyIter items)

def dedupe_go (seen ordered : List PyVal) : List PyVal → Except PyErr (List PyVal)
  | [] => .ok ordered
  | item :: rest =>
      if !pyTruthy item then dedupe_go seen ordered rest
      else if !pyHashable item then .error .typeError
      else if seen.any (fun s => pyEqScalar s item) then dedupe_go seen ordered rest
      else dedupe_go (seen ++ [item]) (ordered ++ [item]) rest

/-- The function `dedupe_preserve` of `pipeline.py` (set membership raises
`TypeError` on unhashable items, which the embedding reproduces). -/
def dedupe_preserve (seq : List PyVal) : Except PyErr (List PyVal) :=
  dedupe_go [] [] seq

/-- Python `tag.lstrip("@")`: a string method, so any non-string raises
`AttributeError`. -/
def lstripAt (v : PyVal) : Except PyErr PyVal :=
  match v with
  | .str s => .ok (.str (String.mk (s.toList.dropWhile (fun c => c = '@'))))
  | _ => .error .attributeError

/-- The generator `tag.lstrip("@") for tag in ...` as consumed by
`dedupe_preserve` (every yielded tag is consumed, so strict evaluation is
faithful). -/
def lstrip_go : List PyVal → Except PyErr (List PyVal)
  | [] => .ok []
  | v :: rest => do
      let s ← lstripAt v
      return s :: (← lstrip_go rest)

/-- The function `build_url` of `pipeline.py`. -/
def build_url (doc : PyVal) : Except PyErr PyVal := do
  let candidate := pyOr (← dget doc "canonical_url") (← dget doc "website_url")
  let website := pyOr (← dget doc "canonical_website") (← dget doc "website")
  if !pyTruthy candidate then return PyVal.none
  match candidate with
  | .str s =>
      if pyStartsWith s "http" then return (.str s)
      if pyTruthy website then
        return (.str ("https://www." ++ pyToStr website ++ ".com" ++ s))
      return (.str s)
  | _ => throw .attributeError

/-- One iteration of the `promo_items` probing loop of `extract_metadata`:
`if key in promo and promo[key].get("url"): thumb = promo[key]["url"]`. -/
def thumbTry (promo : PyVal) (key : String) : Except PyErr (Option PyVal) := do
  if ← pyContains promo key then
    let pv ← pyIndexStr promo key
    let u ← dget pv "url"
    if pyTruthy u then
      return some (← pyIndexStr pv "url")
    else
      return Option.none
  else
    return Option.none

def thumbOf (promo : PyVal) : Except PyErr (Option PyVal) := do
  match ← thumbTry promo "basic" with
  | some v => return some v
  | Option.none =>
      match ← thumbTry promo "lead_art" with
      | some v => return some v
      | Option.none => thumbTry promo "square1x1"

/-- An optional metadata entry guarded by
`isinstance(x, str) and x.strip()`. -/
def strEntry (key : String) (v : PyVal) : List (String × PyVal) :=
  match v with
  | .str s => if pyNonBlank s then [(key, .str s)] else []
  | _ => []

/-- The function `extract_metadata` of `pipeline.py`.  Note that
`metadata["url"]` and `metadata["external_id"]` are unconditional
assignments in the source, while the other fields are guarded; the `x or []`
on the three taxonomy lists is the identity on list values and is kept
as the plain list. -/
def extract_metadata (doc : PyVal) : Except PyErr PyVal := do
  let taxonomy := pyOr (← dget doc "taxonomy") (.dict [])
  let sections ← dedupe_preserve (← collect_names (pyOr (← dget taxonomy "sections") (.list [])))
  let categories ← dedupe_preserve (← collect_names (pyOr (← dget taxonomy "categories") (.list [])))
  let tagNames ← collect_names (pyOr (← dget taxonomy "tags") (.list []))
  let tags ← dedupe_preserve (← lstrip_go tagNames)
  let promo := pyOr (← dget doc "promo_items") (.dict [])
  let thumb ← thumbOf promo
  let headlines := pyOr (← dget doc "headlines") (.dict [])
  let title ← dget headlines "basic"
  let urlv ← build_url doc
  let extId ← dget doc "_id"
  let pd ← dget doc "publish_date"
  let dd := pyOr (← dget doc "display_date") (← dget doc "publish_date")
  let fp ← dget doc "first_publish_date"
  let ws := pyOr (← dget doc "canonical_website") (← dget doc "website")
  let md :=
    strEntry "title" title
    ++ [("url", urlv), ("external_id", extId)]
    ++ strEntry "publish_date" pd
    ++ strEntry "datetime" dd
    ++ strEntry "first_publish_date" fp
    ++ strEntry "website" ws
    ++ [("sections", .list sections), ("categories", .list categories), ("tags", .list tags)]
    ++ (match thumb with
        | some v => strEntry "thumb" v
        | Option.none => [])
  return .dict md

/-! ## DocumentTransformer -/

/-- The comparison `etype == "text"` (Python `==`, which never raises
here). -/
def isTextType (v : PyVal) : Bool :=
  match v with
  | .str s => s == "text"
  | _ => false

/-- First loop of `extract_text`: keep `elem.get("content", "")` of the
`text`-typed elements. -/
def segments_go : List PyVal → Except PyErr (List PyVal)
  | [] => .ok []
  | elem :: rest => do
      let etype ← dget elem "type"
      if isTextType etype then
        let c ← dgetD elem "content" (.str "")
        return c :: (← segments_go rest)
      else
        segments_go rest

/-- Second loop of `extract_text`: normalize each segment and drop the
ones that normalize to the empty string. -/
def cleaned_go : List PyVal → Except PyErr (List String)
  | [] => .ok []
  | seg :: rest => do
      let n ← normalize_text_py seg
      if n ≠ "" then
        return n :: (← cleaned_go rest)
      else
        cleaned_go rest

/-- Third loop of `extract_text`: join with single spaces. -/
def joinParts (parts : List String) : String :=
  parts.foldl (fun comb part => if comb = "" then part else comb ++ " " ++ part) ""

/-- The function `extract_text` of `pipeline.py`. -/
def extract_text (content_elements : PyVal) : Except PyErr String := do
  if !pyTruthy content_elements then return ""
  let elems ← pyIter content_elements
  let segments ← segments_go elems
  let cleaned ← cleaned_go segments
  return joinParts cleaned

/-- The function `transform_document` of `pipeline.py`. -/
def transform_document (doc : PyVal) : Except PyErr PyVal := do
  let text ← extract_text (← dget doc "content_elements")
  let md ← extract_metadata doc
  return .dict [("text", .str text), ("metadata", md)]

/-! ## DocumentValidator (`validate_output`) -/

/-- The text check of `validate_output`:
`not isinstance(doc.get("text"), str) or not doc["text"].strip()`. -/
def checkText (doc : PyVal) : Except PyErr Unit := do
  let t ← dget doc "text"
  match t with
  | .str s => if pyNonBlank s then return () else throw (.valueError "Invalid text field")
  | _ => throw (.valueError "Invalid text field")

/-- The required-key loop of `validate_output` over
`("external_id", "url")`. -/
def checkRequired (md : PyVal) : Except PyErr Unit := do
  let e ← dget md "external_id"
  if !pyTruthy e then throw (.valueError "Missing required metadata.external_id")
  let u ← dget md "url"
  if !pyTruthy u then throw (.valueError "Missing required metadata.url")
  return ()

/-- One iteration of the timestamp loop of `validate_output`. -/
def checkTs (md : PyVal) (key : String) : Except PyErr Unit := do
  let v ← dget md key
  match v with
  | PyVal.none => return ()
  | .str s =>
      if !pyEndsWith s "Z" then throw (.valueError (key ++ " must end with Z (UTC)"))
      else if fromisoformat_ok (replaceZ s) then return ()
      else throw (.valueError (key ++ " must match ISO 8601 UTC format"))
  | _ => throw (.valueError (key ++ " must be string in ISO 8601 UTC format"))

/-- `validate_output` up to (and excluding) the embedding-dimension
check. -/
def validate_core (doc : PyVal) : Except PyErr Unit := do
  checkText doc
  let md ← dgetD doc "metadata" (.dict [])
  checkRequired md
  checkTs md "publish_date"
  checkTs md "datetime"
  checkTs md "first_publish_date"

/-- The final clause of `validate_output`:
`if embedding_dim and "embedding" in doc: ...` (note the truthiness test on
`embedding_dim` and the key-presence test on `"embedding"`). -/
def checkEmb (doc : PyVal) (dim : Option Int) : Except PyErr Unit := do
  match dim with
  | Option.none => return ()
  | some d =>
      if d = 0 then return ()
      else
        if ← pyContains doc "embedding" then
          match ← pyIndexStr doc "embedding" with
          | .list xs =>
              if Int.ofNat xs.length = d then return ()
              else throw (.valueError "Embedding dimension mismatch")
          | _ => throw (.valueError "Embedding dimension mismatch")
        else return ()

/-- The function `validate_output` of `pipeline.py`. -/
def validate_output (doc : PyVal) (embedding_dim : Option Int) : Except PyErr Unit := do
  validate_core doc
  checkEmb doc embedding_dim

/-! ## EmbeddingProvider -/

/-- The placement loop of `add_embeddings_openai`:
`batch_embeddings[item.index] = item.embedding` (a Python list-index
assignment, which raises `IndexError` out of range). -/
def place_go (acc : List PyVal) : List (Nat × PyVal) → Except PyErr (List PyVal)
  | [] => .ok acc
  | (i, v) :: rest =>
      if i < acc.length then place_go (acc.set i v) rest
      else .error .indexError

/-- Reassembly of one batch response in `add_embeddings_openai`:
`batch_embeddings = [None] * len(response.data)` followed by the placement
loop over the response items, each carrying its positional `index`. -/
def place_batch (items : List (Nat × PyVal)) : Except PyErr (List PyVal) :=
  place_go (List.replicate items.length PyVal.none) items

/-- `embeddings.extend(batch_embeddings)` over the per-batch responses in
submission order. -/
def concat_batches (responses : List (List (Nat × PyVal))) : Except PyErr (List PyVal) :=
  match responses with
  | [] => .ok []
  | r :: rs => do
      let b ← place_batch r
      return b ++ (← concat_batches rs)

/-- Python `len(v)` on sized values. -/
def pyLen (v : PyVal) : Except PyErr Nat :=
  match v with
  | .list xs => .ok xs.length
  | .str s => .ok s.length
  | .dict kvs => .ok kvs.length
  | _ => .error .typeError

/-- The attach-and-revalidate loop shared by both embedding strategies:
`for doc, emb in zip(docs, embeddings): doc["embedding"] = emb;
validate_output(doc, embedding_dim=dim)`.  On success the result is the
final state of the (in-place mutated) document list. -/
def attach_validate (dim : Int) : List PyVal → List PyVal → Except PyErr (List PyVal)
  | d :: ds, e :: es =>
      let d2 := pySetItem d "embedding" e
      match validate_output d2 (some dim) with
      | .error er => .error er
      | .ok _ =>
          match attach_validate dim ds es with
          | .error er => .error er
          | .ok rest => .ok (d2 :: rest)
  | ds, [] => .ok ds
  | [], _ :: _ => .ok []

/-- The function `add_embeddings_openai` of `pipeline.py` after the network
calls, with each batch response given as its list of `(index, embedding)`
items: reassemble every batch by explicit index, concatenate in submission
order, fail if the aggregate is empty, read the dimension off the first
vector, and attach in order with re-validation. -/
def add_embeddings_openai (docs : List PyVal) (responses : List (List (Nat × PyVal))) :
    Except PyErr (Int × List PyVal) := do
  let embeddings ← concat_batches responses
  if embeddings.isEmpty then throw (.valueError "No embeddings returned from OpenAI")
  let dim ← match embeddings.head? with
    | some v => do pure (Int.ofNat (← pyLen v))
    | Option.none => throw (.valueError "No embeddings returned from OpenAI")
  let out ← attach_validate dim docs embeddings
  return (dim, out)

/-- The function `add_embeddings_sentence_transformers` of `pipeline.py`
with the external model's outputs (its declared dimension and the encoded
vectors, order-preserving by the encoding call's contract) as
parameters. -/
def add_embeddings_sentence_transformers (docs : List PyVal) (dim : Int) (embs : List PyVal) :
    Except PyErr (Int × List PyVal) := do
  let out ← attach_validate dim docs embs
  return (dim, out)

/-! ## Pipeline orchestrator (pure core of `run_pipeline`) -/

/-- One document of the transform loop of `run_pipeline`:
`transform_document` then `validate_output` with no dimension; any raised
exception is caught and the document dropped. -/
def try_transform (doc : PyVal) : Option PyVal :=
  match (do
      let td ← transform_document doc
      validate_output td Option.none
      return td : Except PyErr PyVal) with
  | .ok td => some td
  | .error _ => Option.none

/-- The transform loop of `run_pipeline`: surviving transformed documents
are appended in input order. -/
def transform_stage (raw : List PyVal) : List PyVal :=
  raw.foldl (fun acc doc =>
    match try_transform doc with
    | some td => acc ++ [td]
    | Option.none => acc) []

/-- Python `raw[:n]` for an integer `n` (negative slice ends count from the
end of the list). -/
def pySliceTo (xs : List PyVal) (n : Int) : List PyVal :=
  if 0 ≤ n then xs.take n.toNat
  else xs.take (xs.length - (-n).toNat)

/-- The prefix-limit application in `run_pipeline`:
`if limit: raw = raw[:limit]` — a truthiness test, so both `None` and `0`
leave the corpus untouched. -/
def apply_limit (limit : Option Int) (raw : List PyVal) : List PyVal :=
  match limit with
  | Option.none => raw
  | some n => if n ≠ 0 then pySliceTo raw n else raw

/-! ## Well-shaped raw documents

`extract_metadata` is not total on arbitrary mappings: taxonomy items,
promo values, url candidates or tag labels of unexpected types make it
raise.  `wellShaped` captures the shape assumptions under which it is
total; these predicates are stated over the raw document, for use in the
amended totality claim. -/

/-- A taxonomy item's displayable value: a string, or absent/`None`. -/
def labelValOk (v : PyVal) : Bool :=
  match v with
  | .str _ => true
  | .none => true
  | _ => false

/-- A taxonomy item that `collect_names` can process: a mapping whose four
label keys hold strings when present. -/
def labelItemOk (item : PyVal) : Bool :=
  match item with
  | .dict kvs =>
      labelValOk (dlookup kvs "name") && labelValOk (dlookup kvs "text") &&
      labelValOk (dlookup kvs "description") && labelValOk (dlookup kvs "slug")
  | _ => false

/-- A `taxonomy.get(...)` value the pipeline can consume: falsy (defaulted
to `[]`) or a list of well-shaped items. -/
def taxListOk (v : PyVal) : Bool :=
  if pyTruthy v then
    match v with
    | .list xs => xs.all labelItemOk
    | _ => false
  else true

/-- A `doc.get("taxonomy")` value the pipeline can consume. -/
def taxonomyOk (v : PyVal) : Bool :=
  if pyTruthy v then
    match v with
    | .dict kvs =>
        taxListOk (dlookup kvs "sections") && taxListOk (dlookup kvs "categories") &&
        taxListOk (dlookup kvs "tags")
    | _ => false
  else true

/-- A promo entry, when present, must be a mapping (the code calls
`promo[key].get("url")`). -/
def promoEntryOk (kvs : List (String × PyVal)) (k : String) : Bool :=
  match kvs.lookup k with
  | Option.none => true
  | some (.dict _) => true
  | some _ => false

/-- A `doc.get("promo_items")` value the pipeline can consume. -/
def promoOk (v : PyVal) : Bool :=
  if pyTruthy v then
    match v with
    | .dict kvs =>
        promoEntryOk kvs "basic" && promoEntryOk kvs "lead_art" && promoEntryOk kvs "square1x1"
    | _ => false
  else true

/-- A `doc.get("headlines")` value the pipeline can consume. -/
def headlinesOk (v : PyVal) : Bool :=
  if pyTruthy v then
    match v with
    | .dict _ => true
    | _ => false
  else true

/-- The chosen url candidate must be a string when truthy (the code calls
`candidate.startswith`). -/
def candidateOk (v : PyVal) : Bool :=
  if pyTruthy v then
    match v with
    | .str _ => true
    | _ => false
  else true

/-- Raw documents on which `extract_metadata` is total. -/
def wellShaped (doc : PyVal) : Bool :=
  match doc with
  | .dict kvs =>
      taxonomyOk (dlookup kvs "taxonomy") &&
      promoOk (dlookup kvs "promo_items") &&
      headlinesOk (dlookup kvs "headlines") &&
      candidateOk (pyOr (dlookup kvs "canonical_url") (dlookup kvs "website_url"))
  | _ => false

/-! ## Claim-side predicates for the validator (C5)

These follow the words of the claim: `validate` fails exactly when the
text is missing/blank, a required metadata key is missing or falsy, or a
present timestamp field is not a string / does not end in `Z` / does not
parse as ISO-8601. -/

/-- The metadata mapping as the validator reads it
(`doc.get("metadata", {})`). -/
def mdKvs (kvs : List (String × PyVal)) : List (String × PyVal) :=
  match List.lookup "metadata" kvs with
  | some (.dict m) => m
  | _ => []

/-- Shape assumption for the validator claim: the `metadata` entry, when
present, is a mapping (anything else makes the Python code raise
`AttributeError` instead of a `ValidationError`). -/
def mdShapeOk (kvs : List (String × PyVal)) : Bool :=
  match List.lookup "metadata" kvs with
  | Option.none => true
  | some (.dict _) => true
  | some _ => false

/-- Claim condition: the document's text is missing or blank (no non-blank
string under the `text` key). -/
def claimTextBad (kvs : List (String × PyVal)) : Bool :=
  match dlookup kvs "text" with
  | .str s => !pyNonBlank s
  | _ => true

/-- Claim condition: `metadata.external_id` or `metadata.url` missing or
falsy. -/
def claimReqBad (m : List (String × PyVal)) : Bool :=
  !pyTruthy (dlookup m "external_id") || !pyTruthy (dlookup m "url")

/-- Claim condition for one timestamp field: present (non-`None`) but not
a string, or not ending in `Z`, or not parsing as ISO-8601. -/
def claimTsFieldBad (m : List (String × PyVal)) (k : String) : Bool :=
  match dlookup m k with
  | PyVal.none => false
  | .str s => !(pyEndsWith s "Z" && fromisoformat_ok (replaceZ s))
  | _ => true

/-- Claim condition: some timestamp field among `publish_date`,
`datetime`, `first_publish_date` is present and malformed. -/
def claimTsBad (m : List (String × PyVal)) : Bool :=
  claimTsFieldBad m "publish_date" || claimTsFieldBad m "datetime" ||
  claimTsFieldBad m "first_publish_date"

/-- The outcome is a success or a `ValueError` (Python `ValidationError`),
as opposed to some other exception type. -/
def isValueErrorOrOk : Except PyErr Unit → Bool
  | .ok _ => true
  | .error (.valueError _) => true
  | .error _ => false

/-- Closed form of `labelOf` on a dict item (used to reason about
`collect_names`). -/
def labelSpec (kvs : List (String × PyVal)) : Option PyVal :=
  if pyTruthy (dlookup kvs "name") then some (dlookup kvs "name")
  else if pyTruthy (dlookup kvs "text") then some (dlookup kvs "text")
  else if pyTruthy (dlookup kvs "description") then some (dlookup kvs "description")
  else if pyTruthy (dlookup kvs "slug") then some (dlookup kvs "slug")
  else Option.none

/-! ## Helper lemmas -/

theorem dget_dict (kvs : List (String × PyVal)) (k : String) :
    dget (.dict kvs) k = .ok (dlookup kvs k) := rfl

theorem dlookup_truthy (kvs : List (String × PyVal)) (k : String)
    (h : pyTruthy (dlookup kvs k) = true) : kvs.lookup k = some (dlookup kvs k) := by
  cases hl : kvs.lookup k with
  | none => simp [dlookup, hl, pyTruthy] at h
  | some v => simp [dlookup, hl]

theorem labelVal_truthy_str (w : PyVal) (h1 : labelValOk w = true) (h2 : pyTruthy w = true) :
    ∃ s, w = .str s := by
  cases w <;> simp_all [labelValOk, pyTruthy]

theorem labelOf_dict (kvs : List (String × PyVal)) :
    labelOf (.dict kvs) = .ok (labelSpec kvs) := by
  unfold labelOf labelSpec
  simp only [dget_dict, bind, Except.bind]
  split_ifs <;> rfl

theorem labelSpec_str (kvs : List (String × PyVal)) (h : labelItemOk (.dict kvs) = true) :
    ∀ v, labelSpec kvs = some v → ∃ s, v = .str s := by
  simp only [labelItemOk, Bool.and_eq_true] at h
  intro v hv
  unfold labelSpec at hv
  split_ifs at hv with h1 h2 h3 h4
  · obtain rfl : dlookup kvs "name" = v := by injection hv
    exact labelVal_truthy_str _ (by tauto) h1
  · obtain rfl : dlookup kvs "text" = v := by injection hv
    exact labelVal_truthy_str _ (by tauto) h2
  · obtain rfl : dlookup kvs "description" = v := by injection hv
    exact labelVal_truthy_str _ (by tauto) h3
  · obtain rfl : dlookup kvs "slug" = v := by injection hv
    exact labelVal_truthy_str _ (by tauto) h4

theorem collect_go_ok (xs : List PyVal) (h : ∀ x ∈ xs, labelItemOk x = true) :
    ∃ r, collect_go xs = .ok r ∧ ∀ v ∈ r, ∃ s, v = .str s := by
  induction xs with
  | nil => exact ⟨[], rfl, by simp⟩
  | cons x rest ih =>
      obtain ⟨r, hr, hstr⟩ := ih (fun y hy => h y (List.mem_cons_of_mem _ hy))
      have hx := h x (List.mem_cons_self _ _)
      obtain ⟨kvs, rfl⟩ : ∃ kvs, x = .dict kvs := by
        cases x <;> simp_all [labelItemOk]
      cases hl : labelSpec kvs with
      | none =>
          refine ⟨r, ?_, hstr⟩
          simp [collect_go, labelOf_dict, hl, bind, Except.bind, hr]
      | some v =>
          obtain ⟨s, rfl⟩ := labelSpec_str kvs hx v hl
          refine ⟨.str s :: r, ?_, ?_⟩
          · simp [collect_go, labelOf_dict, hl, bind, Except.bind, hr, pure, Except.pure]
          · intro w hw
            rcases List.mem_cons.mp hw with rfl | hw2
            · exact ⟨s, rfl⟩
            · exact hstr w hw2

theorem place_go_ok (items : List (Nat × PyVal)) :
    ∀ acc : List PyVal,
      (∀ p ∈ items, p.1 < acc.length) →
      ∃ res, place_go acc items = .ok res ∧ res.length = acc.length ∧
        (∀ j, j ∉ items.map Prod.fst → res[j]? = acc[j]?) ∧
        ((items.map Prod.fst).Nodup → ∀ p ∈ items, res[p.1]? = some p.2) := by
  induction items with
  | nil =>
      intro acc _
      exact ⟨acc, rfl, rfl, fun j _ => rfl, fun _ p hp => absurd hp (List.not_mem_nil p)⟩
  | cons hd tl ih =>
      intro acc h
      obtain ⟨i, v⟩ := hd
      have hi : i < acc.length := h (i, v) (List.mem_cons_self _ _)
      have hlen : (acc.set i v).length = acc.length := List.length_set acc i v
      obtain ⟨res, hres, hrlen, hout, hin⟩ :=
        ih (acc.set i v) (fun p hp => by rw [hlen]; exact h p (List.mem_cons_of_mem _ hp))
      refine ⟨res, ?_, by rw [hrlen, hlen], ?_, ?_⟩
      · simp only [place_go, hi, if_pos]
        exact hres
      · intro j hj
        have hj1 : j ≠ i := by
          intro hji
          exact hj (by simp [hji])
        have hj2 : j ∉ tl.map Prod.fst := by
          intro hmem
          exact hj (by simp [hmem])
        rw [hout j hj2, List.getElem?_set_ne (Ne.symm hj1)]
      · intro hnd p hp
        rw [List.map_cons] at hnd
        have hnd2 := List.nodup_cons.mp hnd
        have hnd' : (tl.map Prod.fst).Nodup := hnd2.2
        rcases List.mem_cons.mp hp with heq | hmem
        · subst heq
          have hni : i ∉ tl.map Prod.fst := hnd2.1
          rw [hout i hni]
          rw [List.getElem?_set_self]
          · simp [hi]
        · exact hin hnd' p hmem

theorem dedupe_go_ok (l : List PyVal) :
    ∀ seen ordered, (∀ x ∈ l, pyTruthy x = false ∨ pyHashable x = true) →
    ∃ r, dedupe_go seen ordered l = .ok r := by
  induction l with
  | nil => exact fun _ ordered _ => ⟨ordered, rfl⟩
  | cons x rest ih =>
      intro seen ordered h
      have hx := h x (List.mem_cons_self _ _)
      have hrest := fun y hy => h y (List.mem_cons_of_mem _ hy)
      by_cases htr : pyTruthy x
      · have hh : pyHashable x = true := by
          rcases hx with hx | hx
          · rw [htr] at hx; cases hx
          · exact hx
        by_cases hseen : seen.any (fun s => pyEqScalar s x)
        · obtain ⟨r, hr⟩ := ih seen ordered hrest
          exact ⟨r, by simp [dedupe_go, htr, hh, hseen, hr]⟩
        · obtain ⟨r, hr⟩ := ih (seen ++ [x]) (ordered ++ [x]) hrest
          exact ⟨r, by simp [dedupe_go, htr, hh, hseen, hr]⟩
      · obtain ⟨r, hr⟩ := ih seen ordered hrest
        exact ⟨r, by simp [dedupe_go, htr, hr]⟩

theorem dedupe_str_ok (l : List PyVal) (h : ∀ v ∈ l, ∃ s, v = .str s) :
    ∃ r, dedupe_preserve l = .ok r :=
  dedupe_go_ok l [] []
    (fun x hx => by obtain ⟨s, rfl⟩ := h x hx; exact Or.inr rfl)

theorem lstrip_go_ok (l : List PyVal) (h : ∀ v ∈ l, ∃ s, v = .str s) :
    ∃ r, lstrip_go l = .ok r ∧ ∀ v ∈ r, ∃ s, v = .str s := by
  induction l with
  | nil => exact ⟨[], rfl, by simp⟩
  | cons x rest ih =>
      obtain ⟨r, hr, hstr⟩ := ih (fun y hy => h y (List.mem_cons_of_mem _ hy))
      obtain ⟨s, rfl⟩ := h x (List.mem_cons_self _ _)
      refine ⟨.str (String.mk (s.toList.dropWhile (fun c => c = '@'))) :: r, ?_, ?_⟩
      · simp [lstrip_go, lstripAt, bind, Except.bind, hr, pure, Except.pure]
      · intro w hw
        rcases List.mem_cons.mp hw with rfl | hw2
        · exact ⟨_, rfl⟩
        · exact hstr w hw2

theorem collect_taxlist_ok (v : PyVal) (h : taxListOk v = true) :
    ∃ names, collect_names (pyOr v (.list [])) = .ok names ∧ ∀ w ∈ names, ∃ s, w = .str s := by
  by_cases htr : pyTruthy v
  · obtain ⟨xs, rfl⟩ : ∃ xs, v = .list xs := by
      cases v <;> simp_all [taxListOk]
    have hall : ∀ x ∈ xs, labelItemOk x = true := by
      simp only [taxListOk, htr, if_true, List.all_eq_true, decide_eq_true_eq] at h
      exact h
    obtain ⟨names, hn, hstr⟩ := collect_go_ok xs hall
    exact ⟨names, by simp [pyOr, htr, collect_names, pyIter, bind, Except.bind, hn], hstr⟩
  · refine ⟨[], ?_, by simp⟩
    simp [pyOr, htr, collect_names, pyIter, bind, Except.bind, collect_go]

theorem any_key_lookup (pkvs : List (String × PyVal)) (k : String) :
    (pkvs.any (fun kv => kv.1 == k)) = (pkvs.lookup k).isSome := by
  induction pkvs with
  | nil => rfl
  | cons kv rest ih =>
      obtain ⟨k1, v1⟩ := kv
      by_cases hk : k1 = k
      · subst hk
        simp [List.lookup]
      · have h1 : (k1 == k) = false := by simp [hk]
        have h2 : (k == k1) = false := by simp [Ne.symm hk]
        simp [List.lookup, h1, h2, ih]

theorem thumbTry_ok (pkvs : List (String × PyVal)) (k : String)
    (h : promoEntryOk pkvs k = true) :
    ∃ r, thumbTry (.dict pkvs) k = .ok r := by
  unfold thumbTry
  cases hl : pkvs.lookup k with
  | none =>
      have hany : (pkvs.any (fun kv => kv.1 == k)) = false := by
        rw [any_key_lookup, hl]; rfl
      exact ⟨Option.none, by simp [pyContains, hany, bind, Except.bind, pure, Except.pure]⟩
  | some pv =>
      have hany : (pkvs.any (fun kv => kv.1 == k)) = true := by
        rw [any_key_lookup, hl]; rfl
      obtain ⟨pkv2, rfl⟩ : ∃ pkv2, pv = .dict pkv2 := by
        unfold promoEntryOk at h
        rw [hl] at h
        cases pv <;> simp_all
      by_cases hu : pyTruthy (dlookup pkv2 "url")
      · have hu2 := dlookup_truthy pkv2 "url" hu
        exact ⟨some (dlookup pkv2 "url"),
          by simp [pyContains, hany, bind, Except.bind, pure, Except.pure, pyIndexStr, hl,
                   dget_dict, hu, hu2]⟩
      · exact ⟨Option.none,
          by simp [pyContains, hany, bind, Except.bind, pure, Except.pure, pyIndexStr, hl,
                   dget_dict, hu]⟩

theorem thumbOf_ok (v : PyVal) (h : promoOk v = true) :
    ∃ t, thumbOf (pyOr v (.dict [])) = .ok t := by
  have hsh : ∃ pkvs, pyOr v (.dict []) = .dict pkvs ∧
      promoEntryOk pkvs "basic" = true ∧ promoEntryOk pkvs "lead_art" = true ∧
      promoEntryOk pkvs "square1x1" = true := by
    by_cases htr : pyTruthy v
    · obtain ⟨pkvs, rfl⟩ : ∃ pkvs, v = .dict pkvs := by
        cases v <;> simp_all [promoOk]
      refine ⟨pkvs, by simp [pyOr, htr], ?_, ?_, ?_⟩ <;>
        simp_all [promoOk, htr, Bool.and_eq_true]
    · exact ⟨[], by simp [pyOr, htr], rfl, rfl, rfl⟩
  obtain ⟨pkvs, heq, h1, h2, h3⟩ := hsh
  rw [heq]
  obtain ⟨r1, hr1⟩ := thumbTry_ok pkvs "basic" h1
  obtain ⟨r2, hr2⟩ := thumbTry_ok pkvs "lead_art" h2
  obtain ⟨r3, hr3⟩ := thumbTry_ok pkvs "square1x1" h3
  unfold thumbOf
  cases r1 with
  | some w => exact ⟨some w, by simp [hr1, bind, Except.bind, pure, Except.pure]⟩
  | none =>
      cases r2 with
      | some w => exact ⟨some w, by simp [hr1, hr2, bind, Except.bind, pure, Except.pure]⟩
      | none => exact ⟨r3, by simp [hr1, hr2, hr3, bind, Except.bind, pure, Except.pure]⟩

theorem build_url_ok (kvs : List (String × PyVal))
    (h : candidateOk (pyOr (dlookup kvs "canonical_url") (dlookup kvs "website_url")) = true) :
    ∃ u, build_url (.dict kvs) = .ok u := by
  unfold build_url
  simp only [dget_dict, bind, Except.bind]
  by_cases htr : pyTruthy (pyOr (dlookup kvs "canonical_url") (dlookup kvs "website_url"))
  · obtain ⟨s, hs⟩ : ∃ s, pyOr (dlookup kvs "canonical_url") (dlookup kvs "website_url") = .str s := by
      generalize hg : pyOr (dlookup kvs "canonical_url") (dlookup kvs "website_url") = w at *
      cases w <;> simp_all [candidateOk]
    rw [hs] at htr ⊢
    by_cases hsw : pyStartsWith s "http"
    · exact ⟨.str s, by simp [htr, hsw, pure, Except.pure]⟩
    · by_cases hw : pyTruthy (pyOr (dlookup kvs "canonical_website") (dlookup kvs "website"))
      · exact ⟨.str ("https://www." ++
            pyToStr (pyOr (dlookup kvs "canonical_website") (dlookup kvs "website")) ++ ".com" ++ s),
          by simp [htr, hsw, hw, pure, Except.pure]⟩
      · exact ⟨.str s, by simp [htr, hsw, hw, pure, Except.pure]⟩
  · exact ⟨.none, by simp [htr, pure, Except.pure]⟩

theorem dget_pyOr_dict_ok (v : PyVal) (h : headlinesOk v = true) (k : String) :
    dget (pyOr v (.dict [])) k = .ok (match pyOr v (.dict []) with
      | .dict kvs => dlookup kvs k
      | _ => PyVal.none) := by
  by_cases htr : pyTruthy v
  · obtain ⟨kvs, rfl⟩ : ∃ kvs, v = .dict kvs := by
      cases v <;> simp_all [headlinesOk]
    simp [pyOr, htr, dget_dict]
  · simp [pyOr, htr, dget_dict]

theorem taxonomy_shape (v : PyVal) (h : taxonomyOk v = true) :
    ∃ tkvs, pyOr v (.dict []) = .dict tkvs ∧
      taxListOk (dlookup tkvs "sections") = true ∧
      taxListOk (dlookup tkvs "categories") = true ∧
      taxListOk (dlookup tkvs "tags") = true := by
  by_cases htr : pyTruthy v
  · obtain ⟨tkvs, rfl⟩ : ∃ tkvs, v = .dict tkvs := by
      cases v <;> simp_all [taxonomyOk]
    refine ⟨tkvs, by simp [pyOr, htr], ?_, ?_, ?_⟩ <;>
      simp_all [taxonomyOk, htr, Bool.and_eq_true]
  · exact ⟨[], by simp [pyOr, htr], rfl, rfl, rfl⟩

theorem lookup_strEntry (k k2 : String) (v : PyVal) (rest : List (String × PyVal))
    (h : (k2 == k) = false) :
    List.lookup k2 (strEntry k v ++ rest) = List.lookup k2 rest := by
  unfold strEntry
  cases v <;> try rfl
  rename_i s
  by_cases hb : pyNonBlank s
  · simp [hb, List.lookup, h]
  · simp [hb]

theorem extract_metadata_ok (kvs : List (String × PyVal)) (h : wellShaped (.dict kvs) = true) :
    ∃ md urlv, extract_metadata (.dict kvs) = .ok (.dict md) ∧
      build_url (.dict kvs) = .ok urlv ∧
      List.lookup "url" md = some urlv ∧
      List.lookup "external_id" md = some (dlookup kvs "_id") := by
  simp only [wellShaped, Bool.and_eq_true] at h
  obtain ⟨⟨⟨htax, hpromo⟩, hhead⟩, hcand⟩ := h
  obtain ⟨tkvs, htk, hsec, hcat, htags⟩ := taxonomy_shape _ htax
  obtain ⟨secNames, hsecN, hsecS⟩ := collect_taxlist_ok _ hsec
  obtain ⟨secs, hsecs⟩ := dedupe_str_ok secNames hsecS
  obtain ⟨catNames, hcatN, hcatS⟩ := collect_taxlist_ok _ hcat
  obtain ⟨cats, hcats⟩ := dedupe_str_ok catNames hcatS
  obtain ⟨tagNames, htagN, htagS⟩ := collect_taxlist_ok _ htags
  obtain ⟨tagStripped, htagL, htagLS⟩ := lstrip_go_ok tagNames htagS
  obtain ⟨tags, htags2⟩ := dedupe_str_ok tagStripped htagLS
  obtain ⟨thumb, hthumb⟩ := thumbOf_ok _ hpromo
  obtain ⟨urlv, hurl⟩ := build_url_ok kvs hcand
  have htitle := dget_pyOr_dict_ok _ hhead "basic"
  have hmain : extract_metadata (.dict kvs) = .ok (.dict (
      strEntry "title" (match pyOr (dlookup kvs "headlines") (.dict []) with
        | .dict hk => dlookup hk "basic"
        | _ => PyVal.none)
      ++ [("url", urlv), ("external_id", dlookup kvs "_id")]
      ++ strEntry "publish_date" (dlookup kvs "publish_date")
      ++ strEntry "datetime" (pyOr (dlookup kvs "display_date") (dlookup kvs "publish_date"))
      ++ strEntry "first_publish_date" (dlookup kvs "first_publish_date")
      ++ strEntry "website" (pyOr (dlookup kvs "canonical_website") (dlookup kvs "website"))
      ++ [("sections", .list secs), ("categories", .list cats), ("tags", .list tags)]
      ++ (match thumb with
          | some v => strEntry "thumb" v
          | Option.none => []))) := by
    unfold extract_metadata
    simp only [dget_dict, bind, Except.bind, htk, hsecN, hsecs, hcatN, hcats, htagN,
      htagL, htags2, hthumb, htitle, hurl, pure, Except.pure]
  refine ⟨_, urlv, hmain, hurl, ?_, ?_⟩
  · simp only [List.append_assoc, List.cons_append, List.nil_append]
    rw [lookup_strEntry _ _ _ _ (by rfl)]
    rfl
  · simp only [List.append_assoc, List.cons_append, List.nil_append]
    rw [lookup_strEntry _ _ _ _ (by rfl)]
    rfl

theorem transform_stage_eq_filterMap (raw : List PyVal) :
    transform_stage raw = raw.filterMap try_transform := by
  have haux : ∀ (l acc : List PyVal),
      l.foldl (fun acc doc => match try_transform doc with
        | some td => acc ++ [td]
        | Option.none => acc) acc = acc ++ l.filterMap try_transform := by
    intro l
    induction l with
    | nil => intro acc; simp
    | cons x rest ih =>
        intro acc
        cases hx : try_transform x with
        | none => simp [List.foldl, hx, ih]
        | some td => simp [List.foldl, hx, ih]
  unfold transform_stage
  simpa using haux raw []

theorem attach_validate_ok_shape (dim : Int) :
    ∀ (docs embs out : List PyVal),
      attach_validate dim docs embs = .ok out →
      out = (docs.zip embs).map (fun p => pySetItem p.1 "embedding" p.2) ++
        docs.drop embs.length := by
  intro docs
  induction docs with
  | nil =>
      intro embs out h
      cases embs with
      | nil => simp [attach_validate] at h; subst h; simp
      | cons e es => simp [attach_validate] at h; subst h; simp
  | cons d ds ih =>
      intro embs out h
      cases embs with
      | nil => simp [attach_validate] at h; subst h; simp
      | cons e es =>
          unfold attach_validate at h
          cases hv : validate_output (pySetItem d "embedding" e) (some dim) with
          | error er =>
              simp only [hv] at h
              cases h
          | ok u =>
              cases hrec : attach_validate dim ds es with
              | error er =>
                  simp only [hv, hrec] at h
                  cases h
              | ok rest =>
                  simp only [hv, hrec, Except.ok.injEq] at h
                  subst h
                  simp [ih es rest hrec]

theorem add_st_shape (docs : List PyVal) (dim : Int) (embs : List PyVal)
    (dimout : Int) (out : List PyVal)
    (h : add_embeddings_sentence_transformers docs dim embs = .ok (dimout, out)) :
    out = (docs.zip embs).map (fun p => pySetItem p.1 "embedding" p.2) ++
      docs.drop embs.length := by
  unfold add_embeddings_sentence_transformers at h
  cases hav : attach_validate dim docs embs with
  | error e =>
      simp only [hav, bind, Except.bind] at h
      cases h
  | ok o2 =>
      simp only [hav, bind, Except.bind, pure, Except.pure, Except.ok.injEq,
        Prod.mk.injEq] at h
      rw [← h.2]
      exact attach_validate_ok_shape dim docs embs o2 hav

theorem add_openai_shape (docs : List PyVal) (responses : List (List (Nat × PyVal)))
    (dimout : Int) (out : List PyVal)
    (h : add_embeddings_openai docs responses = .ok (dimout, out)) :
    ∃ embs, concat_batches responses = .ok embs ∧
      out = (docs.zip embs).map (fun p => pySetItem p.1 "embedding" p.2) ++
        docs.drop embs.length := by
  unfold add_embeddings_openai at h
  cases hc : concat_batches responses with
  | error e =>
      simp only [hc, bind, Except.bind] at h
      cases h
  | ok embs =>
      simp only [hc, bind, Except.bind] at h
      cases embs with
      | nil => simp [throw, throwThe, MonadExceptOf.throw] at h
      | cons v vs =>
          simp only [List.isEmpty, Bool.false_eq_true, if_false, List.head?] at h
          cases hl : pyLen v with
          | error e =>
              simp only [hl, bind, Except.bind] at h
              cases h
          | ok n =>
              simp only [hl, bind, Except.bind, pure, Except.pure] at h
              cases hav : attach_validate (Int.ofNat n) docs (v :: vs) with
              | error e =>
                  simp only [hav, bind, Except.bind] at h
                  cases h
              | ok o2 =>
                  simp only [hav, bind, Except.bind, pure, Except.pure, Except.ok.injEq,
                    Prod.mk.injEq] at h
                  refine ⟨v :: vs, rfl, ?_⟩
                  rw [← h.2]
                  exact attach_validate_ok_shape _ _ _ _ hav

theorem checkText_eq (kvs : List (String × PyVal)) :
    checkText (.dict kvs) =
      (if claimTextBad kvs then .error (.valueError "Invalid text field") else .ok ()) := by
  unfold checkText claimTextBad
  cases h : dlookup kvs "text" with
  | str s =>
      by_cases hb : pyNonBlank s <;>
        simp [dget_dict, h, bind, Except.bind, hb, pure, Except.pure, throw, throwThe,
          MonadExceptOf.throw]
  | none => simp [dget_dict, h, bind, Except.bind, throw, throwThe, MonadExceptOf.throw]
  | bool b => simp [dget_dict, h, bind, Except.bind, throw, throwThe, MonadExceptOf.throw]
  | int n => simp [dget_dict, h, bind, Except.bind, throw, throwThe, MonadExceptOf.throw]
  | list xs => simp [dget_dict, h, bind, Except.bind, throw, throwThe, MonadExceptOf.throw]
  | dict d => simp [dget_dict, h, bind, Except.bind, throw, throwThe, MonadExceptOf.throw]

theorem dgetD_md (kvs : List (String × PyVal)) (hM : mdShapeOk kvs = true) :
    dgetD (.dict kvs) "metadata" (.dict []) = .ok (.dict (mdKvs kvs)) := by
  unfold dgetD mdKvs
  unfold mdShapeOk at hM
  cases h : List.lookup "metadata" kvs with
  | none => simp [h]
  | some v => cases v <;> simp_all [h]

theorem checkRequired_eq (m : List (String × PyVal)) :
    checkRequired (.dict m) =
      (if !pyTruthy (dlookup m "external_id") then
        .error (.valueError "Missing required metadata.external_id")
       else if !pyTruthy (dlookup m "url") then
        .error (.valueError "Missing required metadata.url")
       else .ok ()) := by
  unfold checkRequired
  by_cases h1 : pyTruthy (dlookup m "external_id") <;>
    by_cases h2 : pyTruthy (dlookup m "url") <;>
      simp [dget_dict, bind, Except.bind, h1, h2, throw, throwThe, MonadExceptOf.throw,
        pure, Except.pure]

theorem checkTs_spec (m : List (String × PyVal)) (k : String) :
    (checkTs (.dict m) k = .ok () ↔ claimTsFieldBad m k = false) ∧
    isValueErrorOrOk (checkTs (.dict m) k) = true := by
  unfold checkTs claimTsFieldBad
  cases h : dlookup m k with
  | str s =>
      by_cases h1 : pyEndsWith s "Z"
      · by_cases h2 : fromisoformat_ok (replaceZ s) <;>
          simp [dget_dict, h, bind, Except.bind, pure, Except.pure, h1, h2,
            isValueErrorOrOk, throw, throwThe, MonadExceptOf.throw]
      · simp [dget_dict, h, bind, Except.bind, pure, Except.pure, h1,
          isValueErrorOrOk, throw, throwThe, MonadExceptOf.throw]
  | none =>
      simp [dget_dict, h, bind, Except.bind, pure, Except.pure, isValueErrorOrOk]
  | bool b =>
      simp [dget_dict, h, bind, Except.bind, pure, Except.pure, isValueErrorOrOk, throw,
        throwThe, MonadExceptOf.throw]
  | int n =>
      simp [dget_dict, h, bind, Except.bind, pure, Except.pure, isValueErrorOrOk, throw,
        throwThe, MonadExceptOf.throw]
  | list xs =>
      simp [dget_dict, h, bind, Except.bind, pure, Except.pure, isValueErrorOrOk, throw,
        throwThe, MonadExceptOf.throw]
  | dict d =>
      simp [dget_dict, h, bind, Except.bind, pure, Except.pure, isValueErrorOrOk, throw,
        throwThe, MonadExceptOf.throw]

theorem validate_output_none (doc : PyVal) :
    validate_output doc Option.none = validate_core doc := by
  unfold validate_output
  cases hc : validate_core doc <;>
    simp [hc, bind, Except.bind, checkEmb, pure, Except.pure]

theorem dropWhile_head_not (p : Char → Bool) (l : List Char) :
    ∀ c, (l.dropWhile p).head? = some c → p c = false := by
  induction l with
  | nil => intro c h; cases h
  | cons a l ih =>
      intro c h
      by_cases pa : p a
      · rw [List.dropWhile_cons_of_pos pa] at h
        exact ih c h
      · rw [List.dropWhile_cons_of_neg pa] at h
        injection h with h2
        subst h2
        exact eq_false_of_ne_true pa

theorem dropWhile_of_head_ne (p : Char → Bool) (l : List Char)
    (h : ∀ c, l.head? = some c → p c = false) : l.dropWhile p = l := by
  cases l with
  | nil => rfl
  | cons a l =>
      have := h a rfl
      simp [List.dropWhile, this]

theorem mem_of_mem_dropWhile (p : Char → Bool) (l : List Char) :
    ∀ x ∈ l.dropWhile p, x ∈ l :=
  fun _ hx => (List.dropWhile_suffix p).sublist.subset hx

theorem noWsNl_tail (a : Char) (l : List Char) (h : noWsNl (a :: l) = true) :
    noWsNl l = true := by
  simp only [noWsNl, Bool.and_eq_true] at h
  exact h.2

theorem noWsNl_dropWhile (p : Char → Bool) (l : List Char) (h : noWsNl l = true) :
    noWsNl (l.dropWhile p) = true := by
  induction l with
  | nil => exact h
  | cons a l ih =>
      by_cases pa : p a
      · rw [List.dropWhile_cons_of_pos pa]
        exact ih (noWsNl_tail a l h)
      · rw [List.dropWhile_cons_of_neg pa]
        exact h

theorem isWs_ne_nl (c : Char) (h : isWs c = true) : c ≠ '\n' := by
  intro he
  subst he
  exact absurd h (by decide)

theorem collapseWs_subset (l : List Char) : ∀ x ∈ collapseWs l, x ∈ l := by
  induction l with
  | nil => intro x hx; cases hx
  | cons c cs ih =>
      intro x hx
      unfold collapseWs at hx
      by_cases hc : c = '\n'
      · rw [if_pos hc] at hx
        subst hc
        rcases List.mem_cons.mp hx with rfl | hx2
        · exact List.mem_cons_self _ _
        · exact List.mem_cons_of_mem _ (ih x (mem_of_mem_dropWhile _ _ x hx2))
      · rw [if_neg hc] at hx
        by_cases hw : isWs c
        · rw [if_pos hw] at hx
          by_cases hh : (collapseWs cs).head? = some '\n'
          · rw [if_pos hh] at hx
            exact List.mem_cons_of_mem _ (ih x hx)
          · rw [if_neg hh] at hx
            rcases List.mem_cons.mp hx with rfl | hx2
            · exact List.mem_cons_self _ _
            · exact List.mem_cons_of_mem _ (ih x hx2)
        · rw [if_neg hw] at hx
          rcases List.mem_cons.mp hx with rfl | hx2
          · exact List.mem_cons_self _ _
          · exact List.mem_cons_of_mem _ (ih x hx2)

theorem noWsNl_cons (a : Char) (l : List Char) (h1 : pairOkO a l.head? = true)
    (h2 : noWsNl l = true) : noWsNl (a :: l) = true := by
  simp [noWsNl, h1, h2]

theorem noWsNl_collapseWs (l : List Char) : noWsNl (collapseWs l) = true := by
  induction l with
  | nil => rfl
  | cons c cs ih =>
      unfold collapseWs
      by_cases hc : c = '\n'
      · rw [if_pos hc]
        refine noWsNl_cons _ _ ?_ (noWsNl_dropWhile _ _ ih)
        cases hh : ((collapseWs cs).dropWhile isWs).head? with
        | none => rfl
        | some x =>
            have hx : isWs x = false := dropWhile_head_not _ _ x hh
            have hnl : isWs '\n' = false := by decide
            simp [pairOkO, pairOk, hx, hnl]
      · rw [if_neg hc]
        by_cases hw : isWs c
        · rw [if_pos hw]
          by_cases hh : (collapseWs cs).head? = some '\n'
          · rw [if_pos hh]
            exact ih
          · rw [if_neg hh]
            refine noWsNl_cons _ _ ?_ ih
            cases hh2 : (collapseWs cs).head? with
            | none => rfl
            | some x =>
                have hx : x ≠ '\n' := by
                  intro he
                  subst he
                  exact hh hh2
                simp [pairOkO, pairOk, hx, isWs_ne_nl c hw]
        · rw [if_neg hw]
          refine noWsNl_cons _ _ ?_ ih
          cases hh2 : (collapseWs cs).head? with
          | none => rfl
          | some x => simp [pairOkO, pairOk, hw, hc]

theorem collapseWs_of_noWsNl (l : List Char) (h : noWsNl l = true) :
    collapseWs l = l := by
  induction l with
  | nil => rfl
  | cons c cs ih =>
      have htl := noWsNl_tail c cs h
      have hr : collapseWs cs = cs := ih htl
      have hpair : pairOkO c cs.head? = true := by
        simp only [noWsNl, Bool.and_eq_true] at h
        exact h.1
      unfold collapseWs
      rw [hr]
      by_cases hc : c = '\n'
      · rw [if_pos hc]
        subst hc
        congr 1
        refine dropWhile_of_head_ne _ _ ?_
        intro x hx
        rw [hx] at hpair
        simp only [pairOkO, pairOk] at hpair
        simp only [Bool.not_eq_true', Bool.or_eq_false_iff, Bool.and_eq_false_iff] at hpair
        rcases hpair.2 with h3 | h3
        · exact absurd h3 (by decide)
        · exact h3
      · rw [if_neg hc]
        by_cases hw : isWs c
        · rw [if_pos hw]
          rw [if_neg ?_]
          intro hh
          rw [hh] at hpair
          simp [pairOkO, pairOk, hw] at hpair
        · rw [if_neg hw]

theorem dropTrailingNl_mem (l : List Char) : ∀ x ∈ dropTrailingNl l, x ∈ l := by
  induction l with
  | nil => intro x hx; cases hx
  | cons c cs ih =>
      intro x hx
      unfold dropTrailingNl at hx
      split_ifs at hx
      · cases hx
      · rcases List.mem_cons.mp hx with rfl | hx2
        · exact List.mem_cons_self _ _
        · exact List.mem_cons_of_mem _ (ih x hx2)

theorem dropTrailingNl_head (l : List Char) :
    ∀ c, (dropTrailingNl l).head? = some c → l.head? = some c := by
  cases l with
  | nil => intro c h; cases h
  | cons a as =>
      intro c h
      unfold dropTrailingNl at h
      split_ifs at h
      · cases h
      · injection h with h2
        rw [h2]
        rfl

theorem dropTrailingNl_noWsNl (l : List Char) (h : noWsNl l = true) :
    noWsNl (dropTrailingNl l) = true := by
  induction l with
  | nil => exact h
  | cons a as ih =>
      unfold dropTrailingNl
      split_ifs with hcond
      · rfl
      · refine noWsNl_cons _ _ ?_ (ih (noWsNl_tail a as h))
        cases hh : (dropTrailingNl as).head? with
        | none => rfl
        | some x =>
            have := dropTrailingNl_head as x hh
            simp only [noWsNl, Bool.and_eq_true] at h
            rw [this] at h
            exact h.1

theorem dropTrailingNl_getLast (l : List Char) :
    ∀ c, (dropTrailingNl l).getLast? = some c → c ≠ '\n' := by
  induction l with
  | nil => intro c h; cases h
  | cons a as ih =>
      intro c h
      unfold dropTrailingNl at h
      split_ifs at h with hcond
      · cases h
      · cases hr : dropTrailingNl as with
        | nil =>
            rw [hr] at h
            simp only [List.getLast?_singleton, Option.some.injEq] at h
            subst h
            intro he
            exact hcond ⟨he, hr⟩
        | cons b bs =>
            rw [hr] at h
            rw [List.getLast?_cons_cons] at h
            rw [← hr] at h
            exact ih c h

theorem dropTrailingNl_of_getLast_ne (l : List Char)
    (h : ∀ c, l.getLast? = some c → c ≠ '\n') : dropTrailingNl l = l := by
  induction l with
  | nil => rfl
  | cons a as ih =>
      unfold dropTrailingNl
      by_cases hnil : as = []
      · subst hnil
        have ha : a ≠ '\n' := h a (by simp)
        have hne : ¬(a = '\n' ∧ dropTrailingNl ([] : List Char) = []) := by
          intro hc
          exact ha hc.1
        rw [if_neg hne]
        rfl
      · obtain ⟨b, bs, rfl⟩ := List.exists_cons_of_ne_nil hnil
        have hr : dropTrailingNl (b :: bs) = b :: bs := by
          refine ih ?_
          intro c hc
          exact h c (by rw [List.getLast?_cons_cons]; exact hc)
        have hne : ¬(a = '\n' ∧ (b :: bs : List Char) = []) := by
          intro hc
          cases hc.2
        rw [hr, if_neg hne]

theorem stripNl_of_good (l : List Char)
    (hh : ∀ c, l.head? = some c → c ≠ '\n')
    (hl : ∀ c, l.getLast? = some c → c ≠ '\n') : stripNl l = l := by
  unfold stripNl
  rw [dropWhile_of_head_ne _ _ (fun c hc => by
      have := hh c hc
      exact decide_eq_false this)]
  exact dropTrailingNl_of_getLast_ne l hl

theorem strip_html_of_markupFree (l : List Char) (h : isMarkupFree l = true) :
    strip_html_chars l = l := by
  unfold strip_html_chars
  split_ifs with h1
  · rw [List.isEmpty_iff] at h1
    exact h1.symm
  · rfl

theorem map_nbsp_no_nbsp (l : List Char) :
    (l.map nbspToSpace).all (fun c => c ≠ '\xa0') = true := by
  rw [List.all_eq_true]
  intro x hx
  rw [List.mem_map] at hx
  obtain ⟨y, _, rfl⟩ := hx
  unfold nbspToSpace
  split_ifs with hy
  · decide
  · simpa using hy

theorem map_nbsp_of_no_nbsp (l : List Char) (h : l.all (fun c => c ≠ '\xa0') = true) :
    l.map nbspToSpace = l := by
  rw [List.all_eq_true] at h
  induction l with
  | nil => rfl
  | cons a as ih =>
      have ha := h a (List.mem_cons_self _ _)
      simp only [decide_eq_true_eq] at ha
      simp only [List.map_cons, nbspToSpace, if_neg ha]
      rw [ih (fun x hx => h x (List.mem_cons_of_mem _ hx))]

theorem map_nbsp_markupFree (l : List Char) (h : isMarkupFree l = true) :
    isMarkupFree (l.map nbspToSpace) = true := by
  unfold isMarkupFree at *
  rw [List.all_eq_true] at *
  intro x hx
  rw [List.mem_map] at hx
  obtain ⟨y, hy, rfl⟩ := hx
  have := h y hy
  unfold nbspToSpace
  split_ifs
  · decide
  · exact this

theorem all_of_subset (p : Char → Bool) (l l2 : List Char)
    (hsub : ∀ x ∈ l2, x ∈ l) (h : l.all p = true) : l2.all p = true := by
  rw [List.all_eq_true] at *
  exact fun x hx => h x (hsub x hx)

/-- The fixed-point core: `normalize_text` is the identity on strings with
no markup indicator, no non-breaking space, no space/tab adjacent to a
newline, and no leading or trailing newline. -/
theorem normalize_text_eq_self (s : String)
    (h1 : isMarkupFree s.toList = true)
    (h2 : s.toList.all (fun c => c ≠ '\xa0') = true)
    (h3 : noWsNl s.toList = true)
    (h4 : ∀ c, s.toList.head? = some c → c ≠ '\n')
    (h5 : ∀ c, s.toList.getLast? = some c → c ≠ '\n') :
    normalize_text s = s := by
  unfold normalize_text
  rw [map_nbsp_of_no_nbsp _ h2, strip_html_of_markupFree _ h1, collapseWs_of_noWsNl _ h3,
    stripNl_of_good _ h4 h5]
  cases s
  rfl

theorem stripNl_mem (l : List Char) : ∀ x ∈ stripNl l, x ∈ l := by
  intro x hx
  unfold stripNl at hx
  exact mem_of_mem_dropWhile _ _ x (dropTrailingNl_mem _ x hx)

/-! ## Claim theorems -/

/-- C1: each vector returned by the remote embedding provider is placed
into the batch slot named by the response item's explicit positional
index, not by response array order: whenever the response indices are
distinct and in range, the reassembled batch holds, at every index `i`,
exactly the vector whose `index` field is `i`. -/
theorem openai_places_by_index (items : List (Nat × PyVal))
    (hnd : (items.map Prod.fst).Nodup)
    (hlt : ∀ p ∈ items, p.1 < items.length) :
    ∃ res, place_batch items = .ok res ∧ res.length = items.length ∧
      ∀ p ∈ items, res[p.1]? = some p.2 := by
  obtain ⟨res, hres, hrlen, _, hin⟩ :=
    place_go_ok items (List.replicate items.length PyVal.none)
      (fun p hp => by simpa using hlt p hp)
  exact ⟨res, hres, by simpa using hrlen, hin hnd⟩

/-- Witness for C1, the spec's own scenario: a 2-document batch whose
response items arrive with indices `[1, 0]`; slot 0 receives the vector
whose index field is 0 and slot 1 the vector whose index field is 1. -/
theorem openai_places_by_index_witness :
    ∃ res, place_batch [(1, PyVal.str "v1"), (0, PyVal.str "v0")] = .ok res ∧
      res.length = 2 ∧
      ∀ p ∈ [((1 : Nat), PyVal.str "v1"), ((0 : Nat), PyVal.str "v0")], res[p.1]? = some p.2 := by
  obtain ⟨res, h1, h2, h3⟩ :=
    openai_places_by_index [(1, PyVal.str "v1"), (0, PyVal.str "v0")]
      (by simp) (by simp)
  exact ⟨res, h1, h2, h3⟩

/-- C3 counterexample: `extract_metadata` is not total.  On the mapping
`{"promo_items": {"basic": 5}}` the probe `promo[key].get("url")` calls
`.get` on the integer `5` and raises `AttributeError`. -/
theorem extract_metadata_not_total :
    extract_metadata (PyVal.dict [("promo_items", PyVal.dict [("basic", PyVal.int 5)])]) =
      .error .attributeError := rfl

/-- C3 amended: `extract_metadata` is total on well-shaped raw documents —
mappings whose taxonomy lists hold mappings with string labels, whose
promo entries are mappings, and whose chosen url candidate is a string
when truthy; on these it always returns a metadata mapping. -/
theorem extract_metadata_total_wellShaped (doc : PyVal) (h : wellShaped doc = true) :
    ∃ md, extract_metadata doc = .ok md := by
  obtain ⟨kvs, rfl⟩ : ∃ kvs, doc = .dict kvs := by
    cases doc <;> simp_all [wellShaped]
  obtain ⟨md, urlv, hm, _, _, _⟩ := extract_metadata_ok kvs h
  exact ⟨.dict md, hm⟩

/-- Witness for the amended C3 at a concrete well-shaped document. -/
theorem extract_metadata_total_wellShaped_witness :
    wellShaped (PyVal.dict [("taxonomy", PyVal.dict [("sections",
        PyVal.list [PyVal.dict [("name", PyVal.str "news")]])]),
      ("promo_items", PyVal.dict [("basic", PyVal.dict [("url", PyVal.str "http://img")])]),
      ("headlines", PyVal.dict [("basic", PyVal.str "T")]),
      ("canonical_url", PyVal.str "http://a"), ("_id", PyVal.str "1")]) = true ∧
    ∃ md, extract_metadata (PyVal.dict [("taxonomy", PyVal.dict [("sections",
        PyVal.list [PyVal.dict [("name", PyVal.str "news")]])]),
      ("promo_items", PyVal.dict [("basic", PyVal.dict [("url", PyVal.str "http://img")])]),
      ("headlines", PyVal.dict [("basic", PyVal.str "T")]),
      ("canonical_url", PyVal.str "http://a"), ("_id", PyVal.str "1")]) = .ok md :=
  ⟨rfl, extract_metadata_total_wellShaped _ rfl⟩

/-- C4 counterexample: on a document with neither `canonical_url` nor
`website_url` (nor `_id`), the returned metadata still CONTAINS the keys
`url` and `external_id`, mapped to `None` — they are not omitted. -/
theorem url_key_present_when_unresolved :
    extract_metadata (PyVal.dict []) = .ok (.dict [("url", PyVal.none),
      ("external_id", PyVal.none), ("sections", PyVal.list []),
      ("categories", PyVal.list []), ("tags", PyVal.list [])]) ∧
    (List.lookup "url" [("url", PyVal.none), ("external_id", PyVal.none),
      ("sections", PyVal.list []), ("categories", PyVal.list []),
      ("tags", PyVal.list [])]).isSome = true ∧
    (List.lookup "external_id" [("url", PyVal.none), ("external_id", PyVal.none),
      ("sections", PyVal.list []), ("categories", PyVal.list []),
      ("tags", PyVal.list [])]).isSome = true :=
  ⟨rfl, rfl, rfl⟩

/-- C4 amended: `url` and `external_id` are assigned unconditionally by
`extract_metadata`; on a well-shaped document lacking `canonical_url`,
`website_url` and `_id`, the metadata carries both keys with value `None`
(a falsy value that still fails validation later) rather than omitting
them. -/
theorem unresolved_url_fields_are_null (kvs : List (String × PyVal))
    (h : wellShaped (.dict kvs) = true)
    (h1 : List.lookup "canonical_url" kvs = Option.none)
    (h2 : List.lookup "website_url" kvs = Option.none)
    (h3 : List.lookup "_id" kvs = Option.none) :
    ∃ md, extract_metadata (.dict kvs) = .ok (.dict md) ∧
      List.lookup "url" md = some PyVal.none ∧
      List.lookup "external_id" md = some PyVal.none := by
  obtain ⟨md, urlv, hm, hurl, hu, he⟩ := extract_metadata_ok kvs h
  have hcand : build_url (.dict kvs) = .ok PyVal.none := by
    unfold build_url
    simp [dget_dict, dlookup, h1, h2, bind, Except.bind, pyOr, pyTruthy, pure, Except.pure]
  have hnone : urlv = PyVal.none := by
    rw [hcand] at hurl
    injection hurl with h5
    exact h5.symm
  refine ⟨md, hm, by rw [hu, hnone], by rw [he]; simp [dlookup, h3]⟩

/-- Witness for the amended C4 at the empty document. -/
theorem unresolved_url_fields_are_null_witness :
    ∃ md, extract_metadata (.dict []) = .ok (.dict md) ∧
      List.lookup "url" md = some PyVal.none ∧
      List.lookup "external_id" md = some PyVal.none :=
  unresolved_url_fields_are_null [] rfl rfl rfl rfl

/-- C5: with no embedding dimension supplied, `validate_output` succeeds
exactly when the text is a non-blank string, `metadata.external_id` and
`metadata.url` are present and truthy, and every present timestamp field
is a string ending in `Z` that parses as ISO-8601 — and any failure is a
`ValueError` (the pipeline's ValidationError), with no side effect on
success.  Stated for documents whose `metadata` entry, when present, is a
mapping (as the transform stage always produces). -/
theorem validate_matches_spec (kvs : List (String × PyVal)) (hM : mdShapeOk kvs = true) :
    (validate_output (.dict kvs) Option.none = .ok () ↔
      (claimTextBad kvs = false ∧ claimReqBad (mdKvs kvs) = false ∧
       claimTsBad (mdKvs kvs) = false)) ∧
    isValueErrorOrOk (validate_output (.dict kvs) Option.none) = true := by
  obtain ⟨t1i, t1k⟩ := checkTs_spec (mdKvs kvs) "publish_date"
  obtain ⟨t2i, t2k⟩ := checkTs_spec (mdKvs kvs) "datetime"
  obtain ⟨t3i, t3k⟩ := checkTs_spec (mdKvs kvs) "first_publish_date"
  rw [validate_output_none]
  unfold validate_core
  rw [checkText_eq, dgetD_md kvs hM]
  by_cases h1 : claimTextBad kvs
  · constructor
    · simp [h1, bind, Except.bind]
    · simp [h1, bind, Except.bind, isValueErrorOrOk]
  · rw [if_neg h1]
    simp only [bind, Except.bind]
    rw [checkRequired_eq]
    by_cases h2 : pyTruthy (dlookup (mdKvs kvs) "external_id")
    · by_cases h3 : pyTruthy (dlookup (mdKvs kvs) "url")
      · rw [if_neg (by simp [h2]), if_neg (by simp [h3])]
        cases hc1 : checkTs (.dict (mdKvs kvs)) "publish_date" with
        | error e =>
            have hbad1 : claimTsFieldBad (mdKvs kvs) "publish_date" = true := by
              cases hb : claimTsFieldBad (mdKvs kvs) "publish_date"
              · rw [hc1] at t1i
                exact absurd (t1i.mpr hb) (by simp)
              · rfl
            rw [hc1] at t1k
            constructor
            · simp [claimTsBad, hbad1]
            · simpa using t1k
        | ok u =>
            cases u
            rw [hc1] at t1i
            have hgood1 : claimTsFieldBad (mdKvs kvs) "publish_date" = false := t1i.mp rfl
            simp only [hc1]
            cases hc2 : checkTs (.dict (mdKvs kvs)) "datetime" with
            | error e =>
                have hbad2 : claimTsFieldBad (mdKvs kvs) "datetime" = true := by
                  cases hb : claimTsFieldBad (mdKvs kvs) "datetime"
                  · rw [hc2] at t2i
                    exact absurd (t2i.mpr hb) (by simp)
                  · rfl
                rw [hc2] at t2k
                constructor
                · simp [claimTsBad, hbad2]
                · simpa using t2k
            | ok u =>
                cases u
                rw [hc2] at t2i
                have hgood2 : claimTsFieldBad (mdKvs kvs) "datetime" = false := t2i.mp rfl
                simp only [hc2]
                cases hc3 : checkTs (.dict (mdKvs kvs)) "first_publish_date" with
                | error e =>
                    have hbad3 : claimTsFieldBad (mdKvs kvs) "first_publish_date" = true := by
                      cases hb : claimTsFieldBad (mdKvs kvs) "first_publish_date"
                      · rw [hc3] at t3i
                        exact absurd (t3i.mpr hb) (by simp)
                      · rfl
                    rw [hc3] at t3k
                    constructor
                    · simp [claimTsBad, hbad3]
                    · simpa using t3k
                | ok u =>
                    cases u
                    rw [hc3] at t3i
                    have hgood3 : claimTsFieldBad (mdKvs kvs) "first_publish_date" = false :=
                      t3i.mp rfl
                    constructor
                    · simp only [Bool.not_eq_true] at h1
                      simp [h1, claimReqBad, h2, h3, claimTsBad, hgood1, hgood2, hgood3]
                    · simp [isValueErrorOrOk]
      · rw [if_neg (by simp [h2]), if_pos (by simp [h3])]
        constructor
        · simp [claimReqBad, h3]
        · simp [isValueErrorOrOk]
    · rw [if_pos (by simp [h2])]
      constructor
      · simp [claimReqBad, h2]
      · simp [isValueErrorOrOk]

/-- Witness for C5, the claim's three concrete cases: a document with
timestamp `"2024-01-01T10:00:00.123Z"` is accepted; one missing
`external_id` is rejected; one with timestamp `"2024-01-01 10:00:00"` (no
`Z`) is rejected. -/
theorem validate_matches_spec_witness :
    validate_output (.dict [("text", PyVal.str "x"), ("metadata", PyVal.dict
      [("external_id", PyVal.str "1"), ("url", PyVal.str "u"),
       ("publish_date", PyVal.str "2024-01-01T10:00:00.123Z")])]) Option.none = .ok () ∧
    validate_output (.dict [("text", PyVal.str "x"), ("metadata", PyVal.dict
      [("url", PyVal.str "u")])]) Option.none ≠ .ok () ∧
    validate_output (.dict [("text", PyVal.str "x"), ("metadata", PyVal.dict
      [("external_id", PyVal.str "1"), ("url", PyVal.str "u"),
       ("publish_date", PyVal.str "2024-01-01 10:00:00")])]) Option.none ≠ .ok () := by
  refine ⟨?_, ?_, ?_⟩
  · exact (validate_matches_spec [("text", PyVal.str "x"), ("metadata", PyVal.dict
      [("external_id", PyVal.str "1"), ("url", PyVal.str "u"),
       ("publish_date", PyVal.str "2024-01-01T10:00:00.123Z")])] rfl).1.mpr
      ⟨by decide, by decide, by decide⟩
  · intro hok
    have hc := (validate_matches_spec [("text", PyVal.str "x"), ("metadata", PyVal.dict
      [("url", PyVal.str "u")])] rfl).1.mp hok
    exact absurd hc.2.1 (by decide)
  · intro hok
    have hc := (validate_matches_spec [("text", PyVal.str "x"), ("metadata", PyVal.dict
      [("external_id", PyVal.str "1"), ("url", PyVal.str "u"),
       ("publish_date", PyVal.str "2024-01-01 10:00:00")])] rfl).1.mp hok
    exact absurd hc.2.2 (by decide)

/-- C6 counterexample: a document that passes the text, required-key and
timestamp checks and carries NO `embedding` key is accepted by
`validate_output` even when a dimension is supplied — the code only tests
`"embedding" in doc`, so the absent-embedding case the claim requires to
fail in fact succeeds. -/
theorem validate_accepts_missing_embedding :
    validate_output (PyVal.dict [("text", PyVal.str "x"),
      ("metadata", PyVal.dict [("external_id", PyVal.str "1"), ("url", PyVal.str "u")])])
      (some 3) = .ok () ∧
    List.lookup "embedding" [("text", PyVal.str "x"),
      ("metadata", PyVal.dict [("external_id", PyVal.str "1"), ("url", PyVal.str "u")])] =
      Option.none :=
  ⟨rfl, rfl⟩

/-- C6 amended: for a document that passes the base checks, validation
with a supplied `embeddingDim` fails exactly when the dimension is truthy
(non-zero), the `embedding` key is present, and its value is not a list of
length `embeddingDim` (element types are never inspected; an absent
embedding or a zero dimension skips the check entirely). -/
theorem validate_dim_iff (kvs : List (String × PyVal)) (d : Int)
    (hbase : validate_output (.dict kvs) Option.none = .ok ()) :
    (validate_output (.dict kvs) (some d) = .ok () ↔
      (d = 0 ∨ List.lookup "embedding" kvs = Option.none ∨
       ∃ xs, List.lookup "embedding" kvs = some (.list xs) ∧ Int.ofNat xs.length = d)) := by
  have hcore : validate_core (.dict kvs) = .ok () := by
    unfold validate_output at hbase
    cases hc : validate_core (.dict kvs) with
    | ok u => cases u; rfl
    | error e => simp [hc, bind, Except.bind] at hbase
  unfold validate_output
  simp only [hcore, bind, Except.bind]
  unfold checkEmb
  by_cases hd : d = 0
  · simp [hd, pure, Except.pure]
  · simp only [hd, if_false, if_neg hd]
    cases hl : List.lookup "embedding" kvs with
    | none =>
        have hany : (kvs.any (fun kv => kv.1 == "embedding")) = false := by
          rw [any_key_lookup, hl]; rfl
        simp [pyContains, hany, bind, Except.bind, pure, Except.pure, hd]
    | some emb =>
        have hany : (kvs.any (fun kv => kv.1 == "embedding")) = true := by
          rw [any_key_lookup, hl]; rfl
        cases emb with
        | list xs =>
            by_cases hlen : Int.ofNat xs.length = d
            · simp [pyContains, hany, bind, Except.bind, pure, Except.pure, pyIndexStr, hl,
                    hlen, hd]
            · simp [pyContains, hany, bind, Except.bind, pure, Except.pure, pyIndexStr, hl,
                    hlen, hd]
        | none =>
            simp [pyContains, hany, bind, Except.bind, pure, Except.pure, pyIndexStr, hl, hd]
        | bool b =>
            simp [pyContains, hany, bind, Except.bind, pure, Except.pure, pyIndexStr, hl, hd]
        | int n =>
            simp [pyContains, hany, bind, Except.bind, pure, Except.pure, pyIndexStr, hl, hd]
        | str s =>
            simp [pyContains, hany, bind, Except.bind, pure, Except.pure, pyIndexStr, hl, hd]
        | dict dkvs =>
            simp [pyContains, hany, bind, Except.bind, pure, Except.pure, pyIndexStr, hl, hd]

/-- Witness for the amended C6: a document with a 2-element embedding is
accepted at dimension 2 via the equivalence. -/
theorem validate_dim_iff_witness :
    validate_output (PyVal.dict [("text", PyVal.str "x"),
      ("metadata", PyVal.dict [("external_id", PyVal.str "1"), ("url", PyVal.str "u")]),
      ("embedding", PyVal.list [PyVal.int 1, PyVal.int 2])]) (some 2) = .ok () :=
  (validate_dim_iff [("text", PyVal.str "x"),
      ("metadata", PyVal.dict [("external_id", PyVal.str "1"), ("url", PyVal.str "u")]),
      ("embedding", PyVal.list [PyVal.int 1, PyVal.int 2])] 2 rfl).mpr
    (Or.inr (Or.inr ⟨[PyVal.int 1, PyVal.int 2], rfl, rfl⟩))

/-- C2: no stage of the pipeline reorders documents.  The transform loop
emits exactly the surviving transformed documents as a `filterMap` of the
input — the input sequence with dropped documents removed, in original
relative order — and both embedding strategies attach vectors to the
surviving documents positionally: any successful run returns the document
list itself with embeddings zipped on elementwise, never a permutation. -/
theorem pipeline_preserves_order :
    (∀ raw : List PyVal, transform_stage raw = raw.filterMap try_transform) ∧
    (∀ (docs : List PyVal) (dim : Int) (embs : List PyVal) (dimout : Int) (out : List PyVal),
      add_embeddings_sentence_transformers docs dim embs = .ok (dimout, out) →
      out = (docs.zip embs).map (fun p => pySetItem p.1 "embedding" p.2) ++
        docs.drop embs.length) ∧
    (∀ (docs : List PyVal) (responses : List (List (Nat × PyVal)))
        (dimout : Int) (out : List PyVal),
      add_embeddings_openai docs responses = .ok (dimout, out) →
      ∃ embs, concat_batches responses = .ok embs ∧
        out = (docs.zip embs).map (fun p => pySetItem p.1 "embedding" p.2) ++
          docs.drop embs.length) :=
  ⟨transform_stage_eq_filterMap,
   fun docs dim embs dimout out h => add_st_shape docs dim embs dimout out h,
   fun docs responses dimout out h => add_openai_shape docs responses dimout out h⟩

/-- Witness for C2: concrete instances of each conjunct — a one-document
corpus through the transform stage and a one-document embedding
attachment. -/
theorem pipeline_preserves_order_witness :
    (transform_stage [PyVal.dict [("content_elements",
        PyVal.list [PyVal.dict [("type", PyVal.str "text"), ("content", PyVal.str "hi")]]),
        ("_id", PyVal.str "1"), ("canonical_url", PyVal.str "http://a")]] =
      [PyVal.dict [("content_elements",
        PyVal.list [PyVal.dict [("type", PyVal.str "text"), ("content", PyVal.str "hi")]]),
        ("_id", PyVal.str "1"), ("canonical_url", PyVal.str "http://a")]].filterMap
        try_transform) ∧
    ∃ out, add_embeddings_sentence_transformers
        [PyVal.dict [("text", PyVal.str "x"),
          ("metadata", PyVal.dict [("external_id", PyVal.str "1"), ("url", PyVal.str "u")])]]
        1 [PyVal.list [PyVal.int 1]] = .ok (1, out) ∧
      out = ([PyVal.dict [("text", PyVal.str "x"),
          ("metadata", PyVal.dict [("external_id", PyVal.str "1"), ("url", PyVal.str "u")])]].zip
          [PyVal.list [PyVal.int 1]]).map (fun p => pySetItem p.1 "embedding" p.2) ++
        [PyVal.dict [("text", PyVal.str "x"),
          ("metadata", PyVal.dict [("external_id", PyVal.str "1"), ("url", PyVal.str "u")])]].drop
          1 := by
  refine ⟨pipeline_preserves_order.1 _, ?_⟩
  exact ⟨_, rfl, pipeline_preserves_order.2.1 _ 1 _ 1 _ rfl⟩

/-- C9: `build_url` on the chosen candidate (`canonical_url`, else
`website_url`): a candidate that starts with the scheme prefix is returned
verbatim; a relative candidate with a website identifier present yields
`https://www.{website}.com{candidate}`; a relative candidate with no
website identifier is returned unchanged. -/
theorem build_url_spec (kvs : List (String × PyVal)) :
    (∀ s : String,
      pyOr (dlookup kvs "canonical_url") (dlookup kvs "website_url") = .str s →
      pyStartsWith s "http" = true →
      build_url (.dict kvs) = .ok (.str s)) ∧
    (∀ s w : String,
      pyOr (dlookup kvs "canonical_url") (dlookup kvs "website_url") = .str s →
      pyTruthy (.str s) = true →
      pyStartsWith s "http" = false →
      pyOr (dlookup kvs "canonical_website") (dlookup kvs "website") = .str w →
      pyTruthy (.str w) = true →
      build_url (.dict kvs) = .ok (.str ("https://www." ++ w ++ ".com" ++ s))) ∧
    (∀ s : String,
      pyOr (dlookup kvs "canonical_url") (dlookup kvs "website_url") = .str s →
      pyTruthy (.str s) = true →
      pyStartsWith s "http" = false →
      pyTruthy (pyOr (dlookup kvs "canonical_website") (dlookup kvs "website")) = false →
      build_url (.dict kvs) = .ok (.str s)) := by
  refine ⟨?_, ?_, ?_⟩
  · intro s hc hsw
    have hne : pyTruthy (.str s) = true := by
      simp only [pyTruthy]
      by_contra h2
      simp only [Bool.not_eq_true, Bool.not_eq_false'] at h2
      rw [String.isEmpty_iff] at h2
      subst h2
      exact absurd hsw (by decide)
    unfold build_url
    simp [dget_dict, bind, Except.bind, hc, hne, hsw, pure, Except.pure]
  · intro s w hc htr hsw hw hwt
    unfold build_url
    simp [dget_dict, bind, Except.bind, hc, htr, hsw, hw, hwt, pure, Except.pure, pyToStr]
  · intro s hc htr hsw hw
    unfold build_url
    simp [dget_dict, bind, Except.bind, hc, htr, hsw, hw, pure, Except.pure]

/-- Witness for C9, the spec's example: relative candidate `"/a/b"` with
website `"example"` yields `"https://www.example.com/a/b"` (together with a
verbatim absolute case). -/
theorem build_url_spec_witness :
    build_url (.dict [("website_url", PyVal.str "/a/b"), ("website", PyVal.str "example")]) =
      .ok (.str "https://www.example.com/a/b") ∧
    build_url (.dict [("canonical_url", PyVal.str "https://x.com/a")]) =
      .ok (.str "https://x.com/a") := by
  constructor
  · exact (build_url_spec [("website_url", PyVal.str "/a/b"),
      ("website", PyVal.str "example")]).2.1 "/a/b" "example" rfl rfl (by decide) rfl rfl
  · exact (build_url_spec [("canonical_url", PyVal.str "https://x.com/a")]).1
      "https://x.com/a" rfl (by decide)

/-- C7 counterexample: `"a \nb"` contains no markup indicators, yet
`normalize_text` deletes the space before the newline and returns
`"a\nb"` — `normalize` of markup-free input is not the identity in
general, because the whitespace-around-newline collapsing and the
newline trimming run unconditionally. -/
theorem normalize_changes_markupfree_input :
    isMarkupFree (String.toList "a \nb") = true ∧
    normalize_text "a \nb" = "a\nb" ∧ ("a \nb" : String) ≠ "a\nb" :=
  ⟨by decide, by decide, by decide⟩

/-- C7 amended: `normalize` returns its input unchanged provided the input
contains no markup indicators and additionally none of the characters the
unconditional cleanups rewrite: no non-breaking space, no space/tab
adjacent to a newline, and no leading or trailing newline. -/
theorem normalize_markupfree_clean_id (s : String)
    (h1 : isMarkupFree s.toList = true)
    (h2 : s.toList.all (fun c => c ≠ '\xa0') = true)
    (h3 : noWsNl s.toList = true)
    (h4 : s.toList.head? ≠ some '\n')
    (h5 : s.toList.getLast? ≠ some '\n') :
    normalize_text s = s :=
  normalize_text_eq_self s h1 h2 h3
    (fun _ hc he => h4 (he ▸ hc))
    (fun _ hc he => h5 (he ▸ hc))

/-- Witness for the amended C7 on a concrete clean markup-free string. -/
theorem normalize_markupfree_clean_id_witness :
    normalize_text "plain text" = "plain text" :=
  normalize_markupfree_clean_id "plain text" (by decide) (by decide) (by decide)
    (by decide) (by decide)

/-- C8 counterexample: `normalize` is not idempotent.  On `"a&nbsp;b"` the
entity decodes to a non-breaking space (`strip_html` runs after NBSP
replacement), so the first pass returns `"a\xa0b"` and a second pass
rewrites it to `"a b"`. -/
theorem normalize_not_idempotent :
    normalize_text "a&nbsp;b" = "a\xa0b" ∧
    normalize_text (normalize_text "a&nbsp;b") = "a b" ∧
    normalize_text (normalize_text "a&nbsp;b") ≠ normalize_text "a&nbsp;b" :=
  ⟨by decide, by decide, by decide⟩

/-- C8 amended: `normalize` is idempotent on every input containing no
markup indicators; renormalizing such already-normalized text is a no-op.
(With markup, entity decoding can emit characters — e.g. `\xa0` from
`&nbsp;` — that a second pass rewrites.) -/
theorem normalize_idempotent_markupfree (t : String) (h : isMarkupFree t.toList = true) :
    normalize_text (normalize_text t) = normalize_text t := by
  have hmf : isMarkupFree (t.toList.map nbspToSpace) = true := map_nbsp_markupFree _ h
  have hsh : strip_html_chars (t.toList.map nbspToSpace) = t.toList.map nbspToSpace :=
    strip_html_of_markupFree _ hmf
  have hnt : normalize_text t =
      String.mk (stripNl (collapseWs (t.toList.map nbspToSpace))) := by
    unfold normalize_text
    rw [hsh]
  rw [hnt]
  have hmem : ∀ x ∈ stripNl (collapseWs (t.toList.map nbspToSpace)),
      x ∈ t.toList.map nbspToSpace := by
    intro x hx
    exact collapseWs_subset _ x (stripNl_mem _ x hx)
  apply normalize_text_eq_self
  · exact all_of_subset _ _ _ hmem hmf
  · exact all_of_subset _ _ _ hmem (map_nbsp_no_nbsp _)
  · exact dropTrailingNl_noWsNl _ (noWsNl_dropWhile _ _ (noWsNl_collapseWs _))
  · intro c hc
    exact of_decide_eq_false (dropWhile_head_not _ _ c (dropTrailingNl_head _ c hc))
  · intro c hc
    exact dropTrailingNl_getLast _ c hc

/-- Witness for the amended C8 on a concrete markup-free string. -/
theorem normalize_idempotent_markupfree_witness :
    normalize_text (normalize_text " a \nb ") = normalize_text " a \nb " :=
  normalize_idempotent_markupfree " a \nb " (by decide)

/-- C10: `run_pipeline` guards the prefix limit with a truthiness test
(`if limit:`), so a caller-specified limit of `0` does not truncate the
corpus to an empty prefix — every input document is processed, exactly as
when no limit is passed. -/
theorem limit_zero_processes_all (raw : List PyVal) :
    apply_limit (some 0) raw = raw ∧
    apply_limit (some 0) raw = apply_limit Option.none raw ∧
    transform_stage (apply_limit (some 0) raw) = transform_stage raw := by
  refine ⟨by simp [apply_limit], by simp [apply_limit], by simp [apply_limit]⟩

end Pipeline
